import Mathlib

/-!
Verification of the procedural box generators of the repository: the seeded
PRNGs, the BSP container splitter, the face-attachment figure assembler and
the debuff distribution pass.  All JavaScript numbers are embedded as exact
rationals; the 32-bit bitwise arithmetic of the PRNGs is embedded as natural
number arithmetic modulo 2^32 (every JS bitwise operator coerces its operands
with ToInt32/ToUint32, which is congruence modulo 2^32, so tracking the state
modulo 2^32 is exact).
-/

namespace JsNum

/-- The JS unsigned 32-bit modulus, 2^32. -/
def U32 : ℕ := 4294967296

/-- JS Math.imul: the low 32 bits of the product. -/
def imul (a b : ℕ) : ℕ := (a * b) % U32

/-- Fraction in the unit interval obtained from a 32-bit word, as in
`(w >>> 0) / 4294967296`. -/
def u32frac (n : ℕ) : ℚ := ((n % U32 : ℕ) : ℚ) / (U32 : ℚ)

theorem u32frac_nonneg (n : ℕ) : 0 ≤ u32frac n := by
  unfold u32frac
  positivity

theorem u32frac_lt_one (n : ℕ) : u32frac n < 1 := by
  unfold u32frac
  rw [div_lt_one (by norm_num [U32])]
  exact_mod_cast Nat.mod_lt n (by norm_num [U32])

end JsNum

/-- Axis-aligned box given by center coordinates and extents (the `Box`
record of the generator modules: `Point & Size`). -/
structure Box3 where
  x : ℚ
  y : ℚ
  z : ℚ
  width : ℚ
  height : ℚ
  depth : ℚ
deriving DecidableEq, Repr, Inhabited

/-- The three coordinate axes. -/
inductive Axis | x | y | z
deriving DecidableEq, Repr, Inhabited

namespace Gen

/-- Initial internal state of `createRng(seed)`: `seed >>> 0 || 1`. -/
def createRng (seed : ℕ) : ℕ :=
  if seed % JsNum.U32 = 0 then 1 else seed % JsNum.U32

/-- One call of the closure returned by `createRng`: advances the state by the
odd constant and applies the multiply-xor-shift finalizer; returns the new
state and the produced rational in [0,1). -/
def rngStep (s : ℕ) : ℕ × ℚ :=
  let s1 := (s + 0x6d2b79f5) % JsNum.U32
  let t1 := JsNum.imul (s1 ^^^ (s1 >>> 15)) (s1 ||| 1)
  let t2 := t1 ^^^ ((t1 + JsNum.imul (t1 ^^^ (t1 >>> 7)) (t1 ||| 61)) % JsNum.U32)
  (s1, JsNum.u32frac (t2 ^^^ (t2 >>> 14)))

theorem rngStep_nonneg (s : ℕ) : 0 ≤ (rngStep s).2 := JsNum.u32frac_nonneg _

theorem rngStep_lt_one (s : ℕ) : (rngStep s).2 < 1 := JsNum.u32frac_lt_one _

/-- randomIntInclusive: `min + Math.floor(rnd() * (max - min + 1))`. -/
def randomIntInclusive (s : ℕ) (lo hi : ℤ) : ℕ × ℤ :=
  let p := rngStep s
  (p.1, lo + Int.floor (p.2 * ((hi : ℚ) - (lo : ℚ) + 1)))

/-- Size of a box along an axis. -/
def axisSize (b : Box3) (a : Axis) : ℚ :=
  match a with
  | .x => b.width
  | .y => b.height
  | .z => b.depth

/-- Volume of a box. -/
def vol (b : Box3) : ℚ := b.width * b.height * b.depth

/-- A box is splittable when at least one dimension exceeds 1. -/
def splittable (b : Box3) : Prop := 1 < b.width ∨ 1 < b.height ∨ 1 < b.depth

instance (b : Box3) : Decidable (splittable b) := by
  unfold splittable
  infer_instance

/-- Accumulator loop of `pickLargestSplittableIndex`: scans the list keeping
the index of the largest-volume splittable box seen so far. -/
def pickAux : List Box3 → ℕ → ℤ → ℚ → ℤ
  | [], _, best, _ => best
  | b :: rest, i, best, bestVol =>
    if splittable b ∧ bestVol < vol b then
      pickAux rest (i + 1) (i : ℤ) (vol b)
    else
      pickAux rest (i + 1) best bestVol

/-- pickLargestSplittableIndex: index of the largest-volume box with a
dimension above 1, or -1 when none qualifies. -/
def pickLargestSplittableIndex (boxes : List Box3) : ℤ :=
  pickAux boxes 0 (-1) (-1)

/-- The `maxSize` of chooseLongestAxis: the largest extent, counting only
extents above 1 (others enter the maximum as 0). -/
def maxMasked (b : Box3) : ℚ :=
  max (if 1 < b.width then b.width else 0)
    (max (if 1 < b.height then b.height else 0) (if 1 < b.depth then b.depth else 0))

/-- The tied leaders of chooseLongestAxis: axes whose extent equals the
masked maximum, provided that maximum is above 1. -/
def longestCandidates (b : Box3) : List Axis :=
  [Axis.x, Axis.y, Axis.z].filter
    (fun a => decide (axisSize b a = maxMasked b ∧ 1 < maxMasked b))

/-- chooseLongestAxis: the axis of maximal extent above 1, ties broken by a
uniform PRNG draw; falls back to the first axis above 1, then to the x axis. -/
def chooseLongestAxis (s : ℕ) (b : Box3) : ℕ × Axis :=
  if longestCandidates b = [] then
    let avail := [Axis.x, Axis.y, Axis.z].filter (fun a => decide (1 < axisSize b a))
    (s, avail.headD Axis.x)
  else
    let p := randomIntInclusive s 0 (((longestCandidates b).length : ℤ) - 1)
    (p.1, (longestCandidates b).getD p.2.toNat Axis.x)

/-- chooseBalancedCut: integer cut near the middle of `size`, drawn from a
triangular distribution restricted to the `[minRatio, 1 - minRatio]` band and
clamped into `[1, size - 1]`. -/
def chooseBalancedCut (s : ℕ) (size : ℚ) (minRatio : ℚ) : ℕ × ℚ :=
  if size ≤ 2 then (s, 1) else
  let low : ℚ := max 1 ((Int.ceil (size * minRatio) : ℤ) : ℚ)
  let high : ℚ := min (size - 1) ((Int.floor (size * (1 - minRatio)) : ℤ) : ℚ)
  if high < low then (s, 1) else
  let p1 := rngStep s
  let p2 := rngStep p1.1
  let t := (p1.2 + p2.2) / 2
  let cutFloat := low + t * (high - low)
  (p2.1, max 1 (min (size - 1) ((round cutFloat : ℤ) : ℚ)))

/-- splitBoxByAxisCenter: split a center-coordinates box at an integer offset
`cut` from its lower face along `axis` into two exactly-abutting parts. -/
def splitBoxByAxisCenter (parent : Box3) (axis : Axis) (cut : ℚ) : Box3 × Box3 :=
  match axis with
  | .x =>
    (⟨parent.x + (cut - parent.width) / 2, parent.y, parent.z,
      cut, parent.height, parent.depth⟩,
     ⟨parent.x + cut / 2, parent.y, parent.z,
      parent.width - cut, parent.height, parent.depth⟩)
  | .y =>
    (⟨parent.x, parent.y + (cut - parent.height) / 2, parent.z,
      parent.width, cut, parent.depth⟩,
     ⟨parent.x, parent.y + cut / 2, parent.z,
      parent.width, parent.height - cut, parent.depth⟩)
  | .z =>
    (⟨parent.x, parent.y, parent.z + (cut - parent.depth) / 2,
      parent.width, parent.height, cut⟩,
     ⟨parent.x, parent.y, parent.z + cut / 2,
      parent.width, parent.height, parent.depth - cut⟩)

/-- One iteration of the splitting loop of `generateBoxes`: pick the largest
splittable box, choose axis and cut, and splice the two halves in place of the
parent.  Returns `none` when no box can be split (the `idx === -1` break). -/
def splitStep (s : ℕ) (boxes : List Box3) : Option (ℕ × List Box3) :=
  let idx := pickLargestSplittableIndex boxes
  if idx < 0 then none
  else
    let i := idx.toNat
    let box := boxes.getD i default
    let q := chooseLongestAxis s box
    let sz := axisSize box q.2
    let c := chooseBalancedCut q.1 sz (3 / 10)
    let ab := splitBoxByAxisCenter box q.2 c.2
    some (c.1, boxes.take i ++ [ab.1, ab.2] ++ boxes.drop (i + 1))

/-- The `while (remaining > 0)` loop of `generateBoxes`, with the remaining
cut count as fuel. -/
def splitLoop : ℕ → ℕ → List Box3 → ℕ × List Box3
  | 0, s, boxes => (s, boxes)
  | n + 1, s, boxes =>
    match splitStep s boxes with
    | none => (s, boxes)
    | some (s1, boxes1) => splitLoop n s1 boxes1

/-- The list after one `splitStep`, unchanged when no box is splittable. -/
def splitStepList (s : ℕ) (boxes : List Box3) : List Box3 :=
  match splitStep s boxes with
  | none => boxes
  | some (_, boxes1) => boxes1

/-- The initial cubic container, centered at the origin. -/
def containerBox (size : ℕ) : Box3 :=
  ⟨0, 0, 0, (size : ℚ), (size : ℚ), (size : ℚ)⟩

/-- generateBoxes of the BSP splitter module: validates the cut count against
`size^3 - 1` and runs `cuts` splitting iterations. -/
def generateBoxes (size : ℕ) (cuts : ℕ) (seed : ℕ) :
    Except String (List Box3) :=
  if ((size : ℤ) ^ 3 - 1) < (cuts : ℤ) then
    Except.error "maximum number of cuts exceeded"
  else
    Except.ok (splitLoop cuts (createRng seed) [containerBox size]).2

/-- Boxes of a successful run; the empty list on the error branch. -/
def okBoxes (r : Except String (List Box3)) : List Box3 :=
  match r with
  | .ok l => l
  | .error _ => []

/-- Whether the splitter reported the invalid-argument error. -/
def isErr (r : Except String (List Box3)) : Bool :=
  match r with
  | .ok _ => false
  | .error _ => true

end Gen

namespace Figure

/-- JS Number.EPSILON, 2^(-52). -/
def eps : ℚ := 1 / 2 ^ 52

/-- sampleDimension: random integer edge size in [MIN_DIMENSION, MAX_DIMENSION]
= [1, 3]. -/
def sampleDimension (s : ℕ) : ℕ × ℚ :=
  let p := Gen.rngStep s
  (p.1, 1 + ((Int.floor (p.2 * 3) : ℤ) : ℚ))

/-- boxesOverlap: interior-overlap test of two boxes, per axis
`|Δ| * 2 < extA + extB - EPSILON`, colliding only when all three axes
overlap. -/
def boxesOverlap (a b : Box3) : Bool :=
  (decide (|a.x - b.x| * 2 < a.width + b.width - eps) &&
   decide (|a.y - b.y| * 2 < a.height + b.height - eps)) &&
  decide (|a.z - b.z| * 2 < a.depth + b.depth - eps)

/-- Offset of the candidate center from the anchor center on an off-axis of
the attachment: random jitter within the anchor extent when the candidate is
smaller, a random-sign symmetric offset when it is larger. -/
def offsetWithin (aExt cExt : ℚ) (s : ℕ) : ℕ × ℚ :=
  let range := max (aExt - cExt) 0
  let q1 : ℕ × ℚ :=
    if range = 0 then (s, 0)
    else
      let p := Gen.rngStep s
      (p.1, (p.2 - 1 / 2) * range)
  let q2 : ℕ × ℚ :=
    if cExt ≤ aExt then (q1.1, 0)
    else
      let p := Gen.rngStep q1.1
      (p.1, (cExt - aExt) / 2 * (if 1 / 2 < p.2 then 1 else -1))
  (q2.1, q1.2 + q2.2)

/-- placeAdjacentBox: puts the candidate face-flush against the anchor on the
chosen axis and direction, and offsets it on the two orthogonal axes. -/
def placeAdjacentBox (anchor c : Box3) (axis : Axis) (dir : ℚ) (s : ℕ) :
    ℕ × Box3 :=
  match axis with
  | .x =>
    let rx := anchor.x + dir * (anchor.width / 2 + c.width / 2)
    let qy := offsetWithin anchor.height c.height s
    let qz := offsetWithin anchor.depth c.depth qy.1
    (qz.1, { c with x := rx, y := anchor.y + qy.2, z := anchor.z + qz.2 })
  | .y =>
    let ry := anchor.y + dir * (anchor.height / 2 + c.height / 2)
    let qx := offsetWithin anchor.width c.width s
    let qz := offsetWithin anchor.depth c.depth qx.1
    (qz.1, { c with x := anchor.x + qx.2, y := ry, z := anchor.z + qz.2 })
  | .z =>
    let rz := anchor.z + dir * (anchor.depth / 2 + c.depth / 2)
    let qx := offsetWithin anchor.width c.width s
    let qy := offsetWithin anchor.height c.height qx.1
    (qy.1, { c with x := anchor.x + qx.2, y := anchor.y + qy.2, z := rz })

/-- createRandomBox: random extents in [1,3] on each axis, zero center. -/
def createRandomBox (s : ℕ) : ℕ × Box3 :=
  let pw := sampleDimension s
  let ph := sampleDimension pw.1
  let pd := sampleDimension ph.1
  (pd.1, ⟨0, 0, 0, pw.2, ph.2, pd.2⟩)

/-- The body of one placement attempt: draw an anchor, a candidate, an axis
and a direction, and place the candidate against the anchor. -/
def attemptOnce (s : ℕ) (boxes : List Box3) : ℕ × Box3 :=
  let pt := Gen.rngStep s
  let anchor := boxes.getD (Int.floor (pt.2 * (boxes.length : ℚ))).toNat
    (boxes.getD 0 default)
  let pc := createRandomBox pt.1
  let pa := Gen.rngStep pc.1
  let axis : Axis := if pa.2 < 1 / 3 then .x else if pa.2 < 2 / 3 then .y else .z
  let pd := Gen.rngStep pa.1
  let dir : ℚ := if pd.2 < 1 / 2 then -1 else 1
  placeAdjacentBox anchor pc.2 axis dir pd.1

/-- The `MAX_PLACEMENT_ATTEMPTS` retry loop: keep attempting placements until
one does not overlap any existing box, or give up after the attempt budget. -/
def attemptLoop : ℕ → ℕ → List Box3 → ℕ × Option Box3
  | 0, s, _ => (s, none)
  | a + 1, s, boxes =>
    let p := attemptOnce s boxes
    if boxes.any (fun b => boxesOverlap b p.2) then attemptLoop a p.1 boxes
    else (p.1, some p.2)

/-- The `while (mutableBoxes.length < options.boxCount)` growth loop, with the
requested box count as fuel (each iteration adds exactly one box or stops). -/
def buildLoop : ℕ → ℤ → ℕ → List Box3 → ℕ × List Box3
  | 0, _, s, boxes => (s, boxes)
  | f + 1, boxCount, s, boxes =>
    if (boxes.length : ℤ) < boxCount then
      match attemptLoop 64 s boxes with
      | (s1, none) => (s1, boxes)
      | (s1, some b) => buildLoop f boxCount s1 (boxes ++ [b])
    else (s, boxes)

/-- Minimum of `f` over a list, seeded from its first element (the
`Infinity`-seeded fold of `recenterBoxes` on a nonempty list). -/
def foldMinL {α : Type} (f : α → ℚ) : List α → ℚ
  | [] => 0
  | b :: bs => bs.foldl (fun m v => min m (f v)) (f b)

/-- Maximum of `f` over a list, seeded from its first element. -/
def foldMaxL {α : Type} (f : α → ℚ) : List α → ℚ
  | [] => 0
  | b :: bs => bs.foldl (fun m v => max m (f v)) (f b)

/-- Lower x face of a box. -/
def loX (b : Box3) : ℚ := b.x - b.width / 2
/-- Upper x face of a box. -/
def hiX (b : Box3) : ℚ := b.x + b.width / 2
/-- Lower y face of a box. -/
def loY (b : Box3) : ℚ := b.y - b.height / 2
/-- Upper y face of a box. -/
def hiY (b : Box3) : ℚ := b.y + b.height / 2
/-- Lower z face of a box. -/
def loZ (b : Box3) : ℚ := b.z - b.depth / 2
/-- Upper z face of a box. -/
def hiZ (b : Box3) : ℚ := b.z + b.depth / 2

/-- recenterBoxes: translate every box by the center of the common bounding
box, so that the cluster is centered at the origin. -/
def recenterBoxes (boxes : List Box3) : List Box3 :=
  let cx := (foldMinL loX boxes + foldMaxL hiX boxes) / 2
  let cy := (foldMinL loY boxes + foldMaxL hiY boxes) / 2
  let cz := (foldMinL loZ boxes + foldMaxL hiZ boxes) / 2
  boxes.map (fun b => { b with x := b.x - cx, y := b.y - cy, z := b.z - cz })

/-- The material labels drawn per emitted box. -/
inductive MaterialName | standart | glass
deriving DecidableEq, Repr, Inhabited

/-- The emitted GameBox record: id, material and geometry. -/
structure GameBox where
  id : ℕ
  material : MaterialName
  x : ℚ
  y : ℚ
  z : ℚ
  width : ℚ
  height : ℚ
  depth : ℚ
deriving DecidableEq, Repr, Inhabited

/-- Geometry of an emitted GameBox. -/
def geo (g : GameBox) : Box3 := ⟨g.x, g.y, g.z, g.width, g.height, g.depth⟩

/-- The final map of `generateFigure`: assigns ids in order and draws one
material coin flip per box. -/
def finalizeBoxes : ℕ → ℕ → List Box3 → ℕ × List GameBox
  | s, _, [] => (s, [])
  | s, i, b :: rest =>
    let p := Gen.rngStep s
    let m : MaterialName := if 1 / 2 < p.2 then .standart else .glass
    let q := finalizeBoxes p.1 (i + 1) rest
    (q.1, { id := i, material := m, x := b.x, y := b.y, z := b.z,
            width := b.width, height := b.height, depth := b.depth } :: q.2)

/-- The generated figure: seed and emitted boxes. -/
structure GeneratedFigure where
  seed : ℕ
  boxes : List GameBox
deriving Repr

/-- generateFigure: grow a connected cluster of face-attached boxes from one
random seed box, recenter it, and emit GameBoxes. -/
def generateFigure (seed : ℕ) (boxCount : ℤ) : GeneratedFigure :=
  let s0 := Gen.createRng seed
  let p0 := createRandomBox s0
  let pb := buildLoop boxCount.toNat boxCount p0.1 [p0.2]
  let centered := recenterBoxes pb.2
  let pf := finalizeBoxes pb.1 0 centered
  { seed := seed, boxes := pf.2 }

/-- Face-touching: flush on one axis (the face planes coincide) with
overlapping extent on the two other axes. -/
def touches (a b : Box3) : Prop :=
  (|a.x - b.x| * 2 = a.width + b.width ∧ |a.y - b.y| * 2 < a.height + b.height ∧
    |a.z - b.z| * 2 < a.depth + b.depth) ∨
  (|a.y - b.y| * 2 = a.height + b.height ∧ |a.x - b.x| * 2 < a.width + b.width ∧
    |a.z - b.z| * 2 < a.depth + b.depth) ∨
  (|a.z - b.z| * 2 = a.depth + b.depth ∧ |a.x - b.x| * 2 < a.width + b.width ∧
    |a.y - b.y| * 2 < a.height + b.height)

/-- One edge of the touching graph on the emitted box list. -/
def reachStep (out : List GameBox) (i j : ℕ) : Prop :=
  i < out.length ∧ j < out.length ∧
    touches (geo (out.getD i default)) (geo (out.getD j default))

end Figure

namespace Pack

/-- The three debuff kinds of the distribution pass. -/
inductive DebuffKind | FRAGILE | NON_TILTABLE | HEAVY
deriving DecidableEq, Repr, Inhabited

/-- A point, the origin record of a working volume. -/
structure Pt where
  x : ℚ
  y : ℚ
  z : ℚ
deriving DecidableEq, Repr, Inhabited

/-- A working volume of the ratio splitter: extents plus origin corner. -/
structure Volume where
  width : ℚ
  height : ℚ
  depth : ℚ
  origin : Pt
deriving DecidableEq, Repr, Inhabited

/-- Container dimensions. -/
structure ContainerDims where
  width : ℚ
  height : ℚ
  depth : ℚ
deriving DecidableEq, Repr, Inhabited

/-- The emitted Box record of the warehouse module: extents, center, rotation
flags and mutable debuff flags. -/
structure GBox where
  width : ℚ
  height : ℚ
  depth : ℚ
  x : ℚ
  y : ℚ
  z : ℚ
  rx : Bool
  ry : Bool
  rz : Bool
  debuffs : DebuffKind → Bool

instance : Inhabited GBox :=
  ⟨⟨0, 0, 0, 0, 0, 0, false, false, false, fun _ => false⟩⟩

/-- createSeededRandom: initial internal state `(seed ^ 0x6d2b79f5) >>> 0`. -/
def createSeededRandom (seed : ℕ) : ℕ := (seed ^^^ 0x6d2b79f5) % JsNum.U32

/-- One call of the closure returned by `createSeededRandom`: the state is
mixed in place and the output word derives from the new state. -/
def seededStep (st : ℕ) : ℕ × ℚ :=
  let t1 := JsNum.imul (st ^^^ (st >>> 15)) (st ||| 1)
  let t2 := t1 ^^^ ((t1 + JsNum.imul (t1 ^^^ (t1 >>> 7)) (t1 ||| 61)) % JsNum.U32)
  (t2, JsNum.u32frac (t2 ^^^ (t2 >>> 14)))

theorem seededStep_nonneg (s : ℕ) : 0 ≤ (seededStep s).2 := JsNum.u32frac_nonneg _

theorem seededStep_lt_one (s : ℕ) : (seededStep s).2 < 1 := JsNum.u32frac_lt_one _

/-- Extent of a volume along an axis (width, height or depth). -/
def dimOf (v : Volume) (a : Axis) : ℚ :=
  match a with
  | .x => v.width
  | .y => v.height
  | .z => v.depth

/-- isProportional: minimum over maximum extent at least MIN_DIMENSION_RATIO
(0.25), degenerate zero maxima allowed. -/
def isProportional (v : Volume) : Bool :=
  let mn := min v.width (min v.height v.depth)
  let mx := max v.width (max v.height v.depth)
  decide (mx = 0 ∨ 1 / 4 ≤ mn / mx)

/-- splitVolume: cut a volume along an axis, the first part keeping `ratio`
of the extent and the second part starting where the first ends. -/
def splitVolume (v : Volume) (a : Axis) (ratio : ℚ) : Volume × Volume :=
  let firstSize := dimOf v a * ratio
  let secondSize := dimOf v a - firstSize
  match a with
  | .x =>
    ({ v with width := firstSize },
     { v with width := secondSize,
              origin := { v.origin with x := v.origin.x + firstSize } })
  | .y =>
    ({ v with height := firstSize },
     { v with height := secondSize,
              origin := { v.origin with y := v.origin.y + firstSize } })
  | .z =>
    ({ v with depth := firstSize },
     { v with depth := secondSize,
              origin := { v.origin with z := v.origin.z + firstSize } })

/-- Accumulator scan for the largest-volume segment (`maxVolume` starts at
negative infinity, modelled by `none`). -/
def pickMaxVolumeAux : List Volume → ℕ → ℤ → Option ℚ → ℤ
  | [], _, best, _ => best
  | v :: rest, i, best, bv =>
    let volv := v.width * v.height * v.depth
    let takeIt : Bool :=
      match bv with
      | none => true
      | some q => decide (q < volv)
    if takeIt then pickMaxVolumeAux rest (i + 1) (i : ℤ) (some volv)
    else pickMaxVolumeAux rest (i + 1) best bv

/-- Index of the segment with the strictly largest volume. -/
def pickMaxVolume (segs : List Volume) : ℤ := pickMaxVolumeAux segs 0 (-1) none

/-- Stable descending insertion by extent, matching the stable JS
`axes.sort((a, b) => target[b] - target[a])`. -/
def insertDesc (v : Volume) (a : Axis) : List Axis → List Axis
  | [] => [a]
  | b :: rest =>
    if dimOf v b < dimOf v a then a :: b :: rest else b :: insertDesc v a rest

/-- The axes of a volume sorted by descending extent, stably. -/
def sortAxes (v : Volume) : List Axis :=
  [Axis.x, Axis.y, Axis.z].foldr (insertDesc v) []

/-- The MAX_SPLIT_ATTEMPTS loop for a single axis: draw a ratio in the
[0.3, 0.7] band and accept the split if both halves stay proportional. -/
def tryAxis (target : Volume) (axis : Axis) : ℕ → ℕ → ℕ × Option (Volume × Volume)
  | 0, s => (s, none)
  | k + 1, s =>
    let p := seededStep s
    let ratio := 3 / 10 + p.2 * (1 - (3 / 10) * 2)
    let fs := splitVolume target axis ratio
    if isProportional fs.1 && isProportional fs.2 then (p.1, some fs)
    else tryAxis target axis k p.1

/-- The axis loop: try each axis of positive extent, in descending-extent
order, until one split is accepted. -/
def tryAxes (target : Volume) : List Axis → ℕ → ℕ × Option (Volume × Volume)
  | [], s => (s, none)
  | a :: rest, s =>
    if dimOf target a ≤ 0 then tryAxes target rest s
    else
      match tryAxis target a 10 s with
      | (s1, some fs) => (s1, some fs)
      | (s1, none) => tryAxes target rest s1

/-- The main cut loop of the ratio splitter, stopping early when the chosen
segment cannot be split proportionally. -/
def cutLoop : ℕ → ℕ → List Volume → ℕ × List Volume
  | 0, s, segs => (s, segs)
  | n + 1, s, segs =>
    let idx := pickMaxVolume segs
    if idx < 0 then (s, segs)
    else
      let target := segs.getD idx.toNat default
      match tryAxes target (sortAxes target) s with
      | (s1, none) => (s1, segs)
      | (s1, some fs) =>
        cutLoop n s1
          (segs.take idx.toNat ++ [fs.1, fs.2] ++ segs.drop (idx.toNat + 1))

/-- shuffleIndices swap body: one Fisher-Yates step at position `i`. -/
def shuffleAux : ℕ → ℕ → List ℕ → ℕ × List ℕ
  | 0, s, l => (s, l)
  | i0 + 1, s, l =>
    let i := i0 + 1
    let p := seededStep s
    let j := (Int.floor (p.2 * ((i : ℚ) + 1))).toNat
    let li := l.getD i 0
    let lj := l.getD j 0
    shuffleAux i0 p.1 ((l.set i lj).set j li)

/-- shuffleIndices: seeded Fisher-Yates shuffle of `[0, length)`. -/
def shuffleIndices (length : ℕ) (s : ℕ) : ℕ × List ℕ :=
  shuffleAux (length - 1) s (List.range length)

/-- Set a debuff flag on a box. -/
def setDebuffTrue (k : DebuffKind) (b : GBox) : GBox :=
  { b with debuffs := fun k2 => if k2 = k then true else b.debuffs k2 }

/-- Flag the boxes at the given indices with a debuff kind. -/
def applyTags (k : DebuffKind) (idxs : List ℕ) (boxes : List GBox) : List GBox :=
  idxs.foldl (fun bs i => bs.set i (setDebuffTrue k (bs.getD i default))) boxes

/-- The debuff distribution pass: for each entry with a positive requested
count, shuffle the box indices and flag the first `min(amount, length)`. -/
def distPass (s : ℕ) : List (DebuffKind × ℤ) → List GBox → List GBox
  | [], boxes => boxes
  | (k, amount) :: rest, boxes =>
    if amount ≤ 0 then distPass s rest boxes
    else
      let quota := min amount.toNat boxes.length
      let p := shuffleIndices boxes.length s
      distPass p.1 rest (applyTags k (p.2.take quota) boxes)

/-- The splitting phase of the warehouse generateBoxes: the PRNG state after
the cut loop, and the untagged boxes obtained from the final segments. -/
def baseBoxes (seed : ℕ) (cuts : ℤ) (container : ContainerDims) :
    ℕ × List GBox :=
  ((cutLoop cuts.toNat (createSeededRandom seed)
      [⟨container.width, container.height, container.depth,
        ⟨-container.width / 2, -container.height / 2, -container.depth / 2⟩⟩]).1,
   (cutLoop cuts.toNat (createSeededRandom seed)
      [⟨container.width, container.height, container.depth,
        ⟨-container.width / 2, -container.height / 2, -container.depth / 2⟩⟩]).2.map
     (fun seg =>
       { width := seg.width, height := seg.height, depth := seg.depth,
         x := seg.origin.x + seg.width / 2, y := seg.origin.y + seg.height / 2,
         z := seg.origin.z + seg.depth / 2,
         rx := false, ry := false, rz := false, debuffs := fun _ => false }))

/-- generateBoxes of the warehouse module: ratio-based recursive splitting of
the container followed by the debuff distribution pass over the shared PRNG. -/
def generateBoxes (seed : ℕ) (cuts : ℤ) (container : ContainerDims)
    (debuffDistribution : List (DebuffKind × ℤ)) : List GBox :=
  distPass (baseBoxes seed cuts container).1 debuffDistribution
    (baseBoxes seed cuts container).2

end Pack

/-- State of the `createRng` PRNG after `n` output draws. -/
def rngStateN (seed : ℕ) : ℕ → ℕ
  | 0 => Gen.createRng seed
  | n + 1 => (Gen.rngStep (rngStateN seed n)).1

/-- The n-th output of the PRNG returned by `createRng seed`. -/
def rngSeq (seed : ℕ) (n : ℕ) : ℚ := (Gen.rngStep (rngStateN seed n)).2

/-- State of the `createSeededRandom` PRNG after `n` output draws. -/
def seededStateN (seed : ℕ) : ℕ → ℕ
  | 0 => Pack.createSeededRandom seed
  | n + 1 => (Pack.seededStep (seededStateN seed n)).1

/-- The n-th output of the PRNG returned by `createSeededRandom seed`. -/
def seededSeq (seed : ℕ) (n : ℕ) : ℚ := (Pack.seededStep (seededStateN seed n)).2

namespace ListFacts

variable {α : Type} {β : Type}

theorem getD_irrel {l : List α} {i : ℕ} (h : i < l.length) (d d' : α) :
    l.getD i d = l.getD i d' := by
  induction l generalizing i with
  | nil => simp at h
  | cons a t ih =>
    cases i with
    | zero => simp
    | succ j =>
      simp only [List.getD_cons_succ]
      exact ih (by simpa using h)

theorem getD_mem {l : List α} {i : ℕ} (h : i < l.length) (d : α) :
    l.getD i d ∈ l := by
  induction l generalizing i with
  | nil => simp at h
  | cons a t ih =>
    cases i with
    | zero => simp
    | succ j =>
      simp only [List.getD_cons_succ]
      exact List.mem_cons_of_mem a (ih (by simpa using h) )

theorem getD_append_left {l1 l2 : List α} {i : ℕ} (h : i < l1.length) (d : α) :
    (l1 ++ l2).getD i d = l1.getD i d := by
  induction l1 generalizing i with
  | nil => simp at h
  | cons a t ih =>
    cases i with
    | zero => simp
    | succ j =>
      simp only [List.cons_append, List.getD_cons_succ]
      exact ih (by simpa using h)

theorem getD_append_len (l1 l2 : List α) (b : α) (d : α) :
    (l1 ++ b :: l2).getD l1.length d = b := by
  induction l1 with
  | nil => simp
  | cons a t ih => simpa using ih

theorem eq_take_cons_drop {l : List α} {i : ℕ} (h : i < l.length) (d : α) :
    l = l.take i ++ l.getD i d :: l.drop (i + 1) := by
  induction l generalizing i with
  | nil => simp at h
  | cons a t ih =>
    cases i with
    | zero => simp
    | succ j =>
      simp only [List.take_succ_cons, List.getD_cons_succ, List.drop_succ_cons,
        List.cons_append, List.cons.injEq, true_and]
      exact ih (by simpa using h)

theorem getD_map (f : α → β) (l : List α) (i : ℕ) (d : α) :
    (l.map f).getD i (f d) = f (l.getD i d) := by
  induction l generalizing i with
  | nil => simp
  | cons a t ih =>
    cases i with
    | zero => simp
    | succ j => simpa using ih j

theorem getD_set_self {l : List α} {i : ℕ} (h : i < l.length) (a d : α) :
    (l.set i a).getD i d = a := by
  induction l generalizing i with
  | nil => simp at h
  | cons b t ih =>
    cases i with
    | zero => simp
    | succ j =>
      simp only [List.set_cons_succ, List.getD_cons_succ]
      exact ih (by simpa using h)

theorem getD_set_ne {l : List α} {i j : ℕ} (hij : i ≠ j) (a d : α) :
    (l.set i a).getD j d = l.getD j d := by
  induction l generalizing i j with
  | nil => simp
  | cons b t ih =>
    cases i with
    | zero =>
      cases j with
      | zero => exact absurd rfl hij
      | succ j2 => simp
    | succ i2 =>
      cases j with
      | zero => simp
      | succ j2 =>
        simp only [List.set_cons_succ, List.getD_cons_succ]
        exact ih (by omega)

theorem set_getD_self {l : List α} {i : ℕ} (h : i < l.length) (d : α) :
    l.set i (l.getD i d) = l := by
  induction l generalizing i with
  | nil => simp
  | cons b t ih =>
    cases i with
    | zero => simp
    | succ j =>
      simp only [List.getD_cons_succ, List.set_cons_succ, List.cons.injEq, true_and]
      exact ih (by simpa using h)

theorem pairwise_getD {R : α → α → Prop} {l : List α} (hp : l.Pairwise R)
    {i j : ℕ} (hij : i < j) (hj : j < l.length) (d : α) :
    R (l.getD i d) (l.getD j d) := by
  induction l generalizing i j with
  | nil => simp at hj
  | cons a t ih =>
    rcases List.pairwise_cons.mp hp with ⟨ha, ht⟩
    cases i with
    | zero =>
      cases j with
      | zero => omega
      | succ j2 =>
        simp only [List.getD_cons_zero, List.getD_cons_succ]
        exact ha _ (getD_mem (by simpa using hj) d)
    | succ i2 =>
      cases j with
      | zero => omega
      | succ j2 =>
        simp only [List.getD_cons_succ]
        exact ih ht (by omega) (by simpa using hj)

theorem mem_iff_getD {l : List α} {b : α} (d : α) :
    b ∈ l ↔ ∃ i, i < l.length ∧ l.getD i d = b := by
  constructor
  · intro hb
    induction l with
    | nil => simp at hb
    | cons a t ih =>
      rcases List.mem_cons.mp hb with h | h
      · exact ⟨0, by simp, by simp [h.symm]⟩
      · rcases ih h with ⟨i, hi, he⟩
        exact ⟨i + 1, by simpa using hi, by simpa using he⟩
  · rintro ⟨i, hi, rfl⟩
    exact getD_mem hi d

theorem sum_map_const_one {f : α → ℚ} {l : List α} (h : ∀ b ∈ l, f b = 1) :
    (l.map f).sum = (l.length : ℚ) := by
  induction l with
  | nil => simp
  | cons a t ih =>
    simp only [List.map_cons, List.sum_cons, h a (by simp), List.length_cons]
    rw [ih (fun b hb => h b (List.mem_cons_of_mem a hb))]
    push_cast
    ring

end ListFacts

namespace Gen

/-- Open-interior overlap of two center-extent boxes: the interiors intersect
exactly when the centers are closer than the half-extent sums on all axes. -/
def overlapsOpen (a b : Box3) : Prop :=
  2 * |a.x - b.x| < a.width + b.width ∧ 2 * |a.y - b.y| < a.height + b.height ∧
    2 * |a.z - b.z| < a.depth + b.depth

/-- Closed containment of box `a` inside box `p`. -/
def insideBox (a p : Box3) : Prop :=
  2 * |a.x - p.x| ≤ p.width - a.width ∧ 2 * |a.y - p.y| ≤ p.height - a.height ∧
    2 * |a.z - p.z| ≤ p.depth - a.depth

/-- A rational that equals a positive natural number. -/
def natDim (q : ℚ) : Prop := ∃ n : ℕ, 0 < n ∧ q = (n : ℚ)

/-- All three extents are positive integers. -/
def intBox (b : Box3) : Prop := natDim b.width ∧ natDim b.height ∧ natDim b.depth

/-- The working invariant of the splitting loop: integer positive boxes kept
inside the container, pairwise interior-disjoint, with total volume equal to
the container volume. -/
def SplitInv (size : ℕ) (l : List Box3) : Prop :=
  (∀ b ∈ l, intBox b ∧ insideBox b (containerBox size)) ∧
  l.Pairwise (fun a b => ¬ overlapsOpen a b) ∧
  (l.map vol).sum = ((size : ℚ)) ^ 3

theorem natDim_pos {q : ℚ} (h : natDim q) : 0 < q := by
  rcases h with ⟨n, hn, rfl⟩
  exact_mod_cast hn

theorem natDim_ge_two {q : ℚ} (h : natDim q) (h1 : 1 < q) :
    ∃ n : ℕ, 2 ≤ n ∧ q = (n : ℚ) := by
  rcases h with ⟨n, _, rfl⟩
  exact ⟨n, by exact_mod_cast h1, rfl⟩

theorem vol_pos {b : Box3} (h : intBox b) : 0 < vol b := by
  rcases h with ⟨hw, hh, hd⟩
  exact mul_pos (mul_pos (natDim_pos hw) (natDim_pos hh)) (natDim_pos hd)

theorem natDim_axisSize {b : Box3} (h : intBox b) (a : Axis) :
    natDim (axisSize b a) := by
  rcases h with ⟨hw, hh, hd⟩
  cases a <;> assumption

theorem overlapsOpen_comm {a b : Box3} (h : overlapsOpen a b) : overlapsOpen b a := by
  rcases h with ⟨h1, h2, h3⟩
  refine ⟨?_, ?_, ?_⟩ <;> rw [abs_sub_comm] <;> linarith

theorem not_overlapsOpen_symm {a b : Box3} (h : ¬ overlapsOpen a b) :
    ¬ overlapsOpen b a := fun hh => h (overlapsOpen_comm hh)

theorem insideBox_trans {a p c : Box3} (h1 : insideBox a p) (h2 : insideBox p c) :
    insideBox a c := by
  rcases h1 with ⟨hx1, hy1, hz1⟩
  rcases h2 with ⟨hx2, hy2, hz2⟩
  refine ⟨?_, ?_, ?_⟩
  · have := abs_sub_le a.x p.x c.x
    linarith
  · have := abs_sub_le a.y p.y c.y
    linarith
  · have := abs_sub_le a.z p.z c.z
    linarith

theorem insideBox_not_overlaps_left {a p q : Box3} (hin : insideBox a p)
    (h : ¬ overlapsOpen p q) : ¬ overlapsOpen a q := by
  intro hov
  apply h
  rcases hin with ⟨hx1, hy1, hz1⟩
  rcases hov with ⟨hx2, hy2, hz2⟩
  refine ⟨?_, ?_, ?_⟩
  · have h3 := abs_sub_le p.x a.x q.x
    have h4 : |p.x - a.x| = |a.x - p.x| := abs_sub_comm _ _
    linarith
  · have h3 := abs_sub_le p.y a.y q.y
    have h4 : |p.y - a.y| = |a.y - p.y| := abs_sub_comm _ _
    linarith
  · have h3 := abs_sub_le p.z a.z q.z
    have h4 : |p.z - a.z| = |a.z - p.z| := abs_sub_comm _ _
    linarith

theorem insideBox_not_overlaps_right {a p q : Box3} (hin : insideBox a p)
    (h : ¬ overlapsOpen q p) : ¬ overlapsOpen q a := by
  intro hov
  exact insideBox_not_overlaps_left hin (not_overlapsOpen_symm h) (overlapsOpen_comm hov)

theorem insideBox_refl (b : Box3) : insideBox b b := by
  refine ⟨?_, ?_, ?_⟩ <;> simp

end Gen

namespace Gen

theorem splitBox_extents {p : Box3} {axis : Axis} {cut : ℚ} :
    axisSize (splitBoxByAxisCenter p axis cut).1 axis = cut ∧
    axisSize (splitBoxByAxisCenter p axis cut).2 axis = axisSize p axis - cut := by
  cases axis <;> simp [splitBoxByAxisCenter, axisSize]

theorem splitBox_intBox {p : Box3} {axis : Axis} {m n : ℕ}
    (hp : intBox p) (hax : axisSize p axis = (n : ℚ)) (hm1 : 1 ≤ m)
    (hmn : m + 1 ≤ n) :
    intBox (splitBoxByAxisCenter p axis (m : ℚ)).1 ∧
    intBox (splitBoxByAxisCenter p axis (m : ℚ)).2 := by
  rcases hp with ⟨hw, hh, hd⟩
  have hsub : (n : ℚ) - (m : ℚ) = ((n - m : ℕ) : ℚ) := by
    have : m ≤ n := by omega
    push_cast [this]
    ring
  have hm : natDim ((m : ℚ)) := ⟨m, by omega, rfl⟩
  have hnm : natDim ((n : ℚ) - (m : ℚ)) := ⟨n - m, by omega, hsub⟩
  cases axis with
  | x =>
    simp only [axisSize] at hax
    refine ⟨⟨hm, hh, hd⟩, ⟨?_, hh, hd⟩⟩
    show natDim (p.width - (m : ℚ))
    rw [hax]
    exact hnm
  | y =>
    simp only [axisSize] at hax
    refine ⟨⟨hw, hm, hd⟩, ⟨hw, ?_, hd⟩⟩
    show natDim (p.height - (m : ℚ))
    rw [hax]
    exact hnm
  | z =>
    simp only [axisSize] at hax
    refine ⟨⟨hw, hh, hm⟩, ⟨hw, hh, ?_⟩⟩
    show natDim (p.depth - (m : ℚ))
    rw [hax]
    exact hnm

theorem splitBox_inside {p : Box3} {axis : Axis} {cut : ℚ}
    (h0 : 0 < cut) (h1 : cut < axisSize p axis) :
    insideBox (splitBoxByAxisCenter p axis cut).1 p ∧
    insideBox (splitBoxByAxisCenter p axis cut).2 p := by
  cases axis <;> simp only [axisSize] at h1 <;>
  · constructor <;> refine ⟨?_, ?_, ?_⟩ <;>
      simp only [splitBoxByAxisCenter] <;>
      first
      | (rw [show ∀ v w : ℚ, v + w - v = w from fun v w => by ring]
         rw [abs_of_nonpos (by linarith)]
         linarith)
      | (rw [show ∀ v w : ℚ, v + w - v = w from fun v w => by ring]
         rw [abs_of_nonneg (by linarith)]
         linarith)
      | simp

theorem splitBox_disjoint {p : Box3} {axis : Axis} {cut : ℚ}
    (h0 : 0 < cut) (h1 : cut < axisSize p axis) :
    ¬ overlapsOpen (splitBoxByAxisCenter p axis cut).1
      (splitBoxByAxisCenter p axis cut).2 := by
  intro hov
  cases axis <;> simp only [axisSize] at h1 <;>
  · rcases hov with ⟨hx, hy, hz⟩
    simp only [splitBoxByAxisCenter] at hx hy hz
    first
    | (rw [show ∀ v a b : ℚ, v + a - (v + b) = a - b from fun v a b => by ring] at hx
       rw [show ∀ c w : ℚ, (c - w) / 2 - c / 2 = -(w / 2) from fun c w => by ring] at hx
       rw [abs_neg, abs_of_nonneg (by linarith)] at hx
       linarith)
    | (rw [show ∀ v a b : ℚ, v + a - (v + b) = a - b from fun v a b => by ring] at hy
       rw [show ∀ c w : ℚ, (c - w) / 2 - c / 2 = -(w / 2) from fun c w => by ring] at hy
       rw [abs_neg, abs_of_nonneg (by linarith)] at hy
       linarith)
    | (rw [show ∀ v a b : ℚ, v + a - (v + b) = a - b from fun v a b => by ring] at hz
       rw [show ∀ c w : ℚ, (c - w) / 2 - c / 2 = -(w / 2) from fun c w => by ring] at hz
       rw [abs_neg, abs_of_nonneg (by linarith)] at hz
       linarith)

theorem splitBox_vol_sum (p : Box3) (axis : Axis) (cut : ℚ) :
    vol (splitBoxByAxisCenter p axis cut).1 + vol (splitBoxByAxisCenter p axis cut).2
      = vol p := by
  cases axis <;> simp [splitBoxByAxisCenter, vol] <;> ring

end Gen

namespace Gen

theorem randomIntInclusive_bounds (s : ℕ) (len : ℕ) (hlen : 0 < len) :
    0 ≤ (randomIntInclusive s 0 ((len : ℤ) - 1)).2 ∧
    (randomIntInclusive s 0 ((len : ℤ) - 1)).2 < (len : ℤ) := by
  have ht0 : 0 ≤ (rngStep s).2 := rngStep_nonneg s
  have ht1 : (rngStep s).2 < 1 := rngStep_lt_one s
  have harg : (((len : ℤ) - 1 : ℤ) : ℚ) - ((0 : ℤ) : ℚ) + 1 = (len : ℚ) := by
    push_cast
    ring
  simp only [randomIntInclusive, harg]
  constructor
  · have : (0 : ℚ) ≤ (rngStep s).2 * (len : ℚ) :=
      mul_nonneg ht0 (by positivity)
    simpa using Int.floor_nonneg.mpr this
  · have hmul : (rngStep s).2 * (len : ℚ) < (len : ℚ) :=
      mul_lt_of_lt_one_left (by exact_mod_cast hlen) ht1
    have := Int.floor_lt.mpr (by exact_mod_cast hmul)
    simpa using this

theorem chooseBalancedCut_spec (s : ℕ) (mr : ℚ) {q : ℚ} {n : ℕ}
    (hq : q = (n : ℚ)) (h2 : 2 ≤ n) :
    ∃ m : ℕ, 1 ≤ m ∧ m + 1 ≤ n ∧ (chooseBalancedCut s q mr).2 = (m : ℚ) := by
  by_cases hle : q ≤ 2
  · refine ⟨1, le_refl 1, by omega, ?_⟩
    simp [chooseBalancedCut, hle]
  · simp only [chooseBalancedCut, if_neg hle]
    by_cases hhl : min (q - 1) ((Int.floor (q * (1 - mr)) : ℤ) : ℚ) <
        max 1 ((Int.ceil (q * mr) : ℤ) : ℚ)
    · refine ⟨1, le_refl 1, by omega, ?_⟩
      simp [hhl]
    · rw [if_neg hhl]
      set r : ℤ := round (max 1 ((Int.ceil (q * mr) : ℤ) : ℚ) +
        ((rngStep s).2 + (rngStep (rngStep s).1).2) / 2 *
          (min (q - 1) ((Int.floor (q * (1 - mr)) : ℤ) : ℚ) -
            max 1 ((Int.ceil (q * mr) : ℤ) : ℚ))) with hr
      have hq1 : q - 1 = (((n : ℤ) - 1 : ℤ) : ℚ) := by
        rw [hq]
        push_cast
        ring
      refine ⟨(max 1 (min ((n : ℤ) - 1) r)).toNat, ?_, ?_, ?_⟩
      · have h1 : (1 : ℤ) ≤ max 1 (min ((n : ℤ) - 1) r) := le_max_left _ _
        omega
      · have h1 : max 1 (min ((n : ℤ) - 1) r) ≤ (n : ℤ) - 1 := by
          apply max_le
          · omega
          · exact min_le_left _ _
        have h0 : (1 : ℤ) ≤ max 1 (min ((n : ℤ) - 1) r) := le_max_left _ _
        omega
      · have h0 : (0 : ℤ) ≤ max 1 (min ((n : ℤ) - 1) r) := by
          have := le_max_left (1 : ℤ) (min ((n : ℤ) - 1) r)
          omega
        have hcast : (((max 1 (min ((n : ℤ) - 1) r)).toNat : ℕ) : ℚ)
            = ((max 1 (min ((n : ℤ) - 1) r) : ℤ) : ℚ) := by
          exact_mod_cast congrArg (fun z : ℤ => (z : ℚ)) (Int.toNat_of_nonneg h0)
        rw [hq1, hcast]
        simp [Int.cast_max, Int.cast_min]

end Gen

namespace Gen

theorem pickAux_cases (l : List Box3) : ∀ (i : ℕ) (best : ℤ) (bv : ℚ),
    pickAux l i best bv = best ∨
    ∃ j, j < l.length ∧ pickAux l i best bv = ((i + j : ℕ) : ℤ) ∧
      splittable (l.getD j default) := by
  induction l with
  | nil => intro i best bv; left; rfl
  | cons b rest ih =>
    intro i best bv
    by_cases hc : splittable b ∧ bv < vol b
    · rw [show pickAux (b :: rest) i best bv = pickAux rest (i + 1) (i : ℤ) (vol b) from by
        simp [pickAux, hc]]
      rcases ih (i + 1) (i : ℤ) (vol b) with h | ⟨j, hj, heq, hsp⟩
      · right
        exact ⟨0, by simp, by simpa using h, by simpa using hc.1⟩
      · right
        refine ⟨j + 1, by simpa using hj, ?_, by simpa using hsp⟩
        rw [heq]
        push_cast
        ring_nf
    · rw [show pickAux (b :: rest) i best bv = pickAux rest (i + 1) best bv from by
        simp [pickAux, hc]]
      rcases ih (i + 1) best bv with h | ⟨j, hj, heq, hsp⟩
      · left; exact h
      · right
        refine ⟨j + 1, by simpa using hj, ?_, by simpa using hsp⟩
        rw [heq]
        push_cast
        ring_nf

theorem pickAux_neg (l : List Box3) : ∀ (i : ℕ),
    pickAux l i (-1) (-1) = -1 → ∀ b ∈ l, ¬ (splittable b ∧ (-1 : ℚ) < vol b) := by
  induction l with
  | nil => intro i _ b hb; simp at hb
  | cons b rest ih =>
    intro i hres c hc
    by_cases hcond : splittable b ∧ (-1 : ℚ) < vol b
    · exfalso
      rw [show pickAux (b :: rest) i (-1) (-1) = pickAux rest (i + 1) (i : ℤ) (vol b) from by
        simp [pickAux, hcond]] at hres
      rcases pickAux_cases rest (i + 1) (i : ℤ) (vol b) with h | ⟨j, _, heq, _⟩
      · rw [h] at hres; omega
      · rw [heq] at hres; omega
    · rw [show pickAux (b :: rest) i (-1) (-1) = pickAux rest (i + 1) (-1) (-1) from by
        simp [pickAux, hcond]] at hres
      rcases List.mem_cons.mp hc with rfl | hmem
      · exact hcond
      · exact ih (i + 1) hres c hmem

theorem pick_neg_spec {l : List Box3} (h : pickLargestSplittableIndex l < 0)
    (hvol : ∀ b ∈ l, 0 < vol b) : ∀ b ∈ l, ¬ splittable b := by
  have hm1 : pickLargestSplittableIndex l = -1 := by
    rcases pickAux_cases l 0 (-1) (-1) with hh | ⟨j, _, heq, _⟩
    · rw [pickLargestSplittableIndex, hh]
    · rw [pickLargestSplittableIndex] at h
      rw [heq] at h
      omega
  intro b hb hsp
  exact pickAux_neg l 0 hm1 b hb ⟨hsp, lt_trans (by norm_num) (hvol b hb)⟩

theorem pick_nonneg_spec {l : List Box3} (h : 0 ≤ pickLargestSplittableIndex l) :
    (pickLargestSplittableIndex l).toNat < l.length ∧
    splittable (l.getD (pickLargestSplittableIndex l).toNat default) := by
  rcases pickAux_cases l 0 (-1) (-1) with hh | ⟨j, hj, heq, hsp⟩
  · rw [pickLargestSplittableIndex] at h
    rw [hh] at h
    omega
  · have he : pickLargestSplittableIndex l = (j : ℤ) := by
      rw [pickLargestSplittableIndex, heq]
      push_cast
      ring
    rw [he, show ((j : ℤ)).toNat = j from by omega]
    exact ⟨hj, hsp⟩

theorem chooseLongestAxis_spec (s : ℕ) {b : Box3} (hib : intBox b)
    (hsb : splittable b) :
    ∃ n : ℕ, 2 ≤ n ∧ axisSize b (chooseLongestAxis s b).2 = (n : ℚ) := by
  have hmax : 1 < maxMasked b := by
    unfold maxMasked
    rcases hsb with h | h | h
    · calc (1 : ℚ) < b.width := h
        _ = (if 1 < b.width then b.width else 0) := (if_pos h).symm
        _ ≤ _ := le_max_left _ _
    · calc (1 : ℚ) < b.height := h
        _ = (if 1 < b.height then b.height else 0) := (if_pos h).symm
        _ ≤ max (if 1 < b.height then b.height else 0)
              (if 1 < b.depth then b.depth else 0) := le_max_left _ _
        _ ≤ _ := le_max_right _ _
    · calc (1 : ℚ) < b.depth := h
        _ = (if 1 < b.depth then b.depth else 0) := (if_pos h).symm
        _ ≤ max (if 1 < b.height then b.height else 0)
              (if 1 < b.depth then b.depth else 0) := le_max_right _ _
        _ ≤ _ := le_max_right _ _
  have hattained : ∃ a : Axis, axisSize b a = maxMasked b := by
    have hmaxraw := hmax
    unfold maxMasked at hmaxraw
    rcases max_choice (if 1 < b.width then b.width else 0)
      (max (if 1 < b.height then b.height else 0) (if 1 < b.depth then b.depth else 0))
      with h1 | h1
    · by_cases hw : 1 < b.width
      · refine ⟨Axis.x, ?_⟩
        unfold maxMasked
        rw [h1, if_pos hw]
        rfl
      · exfalso
        rw [h1, if_neg hw] at hmaxraw
        norm_num at hmaxraw
    · rcases max_choice (if 1 < b.height then b.height else 0)
        (if 1 < b.depth then b.depth else 0) with h2 | h2
      · by_cases hh : 1 < b.height
        · refine ⟨Axis.y, ?_⟩
          unfold maxMasked
          rw [h1, h2, if_pos hh]
          rfl
        · exfalso
          rw [h1, h2, if_neg hh] at hmaxraw
          norm_num at hmaxraw
      · by_cases hd : 1 < b.depth
        · refine ⟨Axis.z, ?_⟩
          unfold maxMasked
          rw [h1, h2, if_pos hd]
          rfl
        · exfalso
          rw [h1, h2, if_neg hd] at hmaxraw
          norm_num at hmaxraw
  rcases hattained with ⟨a0, ha0⟩
  have hmem0 : a0 ∈ longestCandidates b := by
    apply List.mem_filter.mpr
    constructor
    · cases a0 <;> simp
    · exact decide_eq_true ⟨ha0, hmax⟩
  have hne : longestCandidates b ≠ [] := by
    intro h
    rw [h] at hmem0
    simp at hmem0
  have hlen : 0 < (longestCandidates b).length := List.length_pos.mpr hne
  have hb1 := (randomIntInclusive_bounds s (longestCandidates b).length hlen).1
  have hb2 := (randomIntInclusive_bounds s (longestCandidates b).length hlen).2
  have hlt : (randomIntInclusive s 0 (((longestCandidates b).length : ℤ) - 1)).2.toNat
      < (longestCandidates b).length := by omega
  have hres : (chooseLongestAxis s b).2 = (longestCandidates b).getD
      (randomIntInclusive s 0 (((longestCandidates b).length : ℤ) - 1)).2.toNat
      Axis.x := by
    simp only [chooseLongestAxis, if_neg hne]
  have hamem : (chooseLongestAxis s b).2 ∈ longestCandidates b := by
    rw [hres]
    exact ListFacts.getD_mem hlt Axis.x
  have hfil := List.mem_filter.mp hamem
  have hprop := of_decide_eq_true hfil.2
  rcases natDim_ge_two (natDim_axisSize hib (chooseLongestAxis s b).2)
    (by rw [hprop.1]; exact hprop.2) with ⟨n, hn2, hn⟩
  exact ⟨n, hn2, hn⟩

end Gen

namespace Gen

theorem splitStep_children {s : ℕ} {boxes : List Box3}
    (hgood : ∀ b ∈ boxes, intBox b)
    (hpos : ¬ pickLargestSplittableIndex boxes < 0) :
    ∃ p a b,
      (pickLargestSplittableIndex boxes).toNat < boxes.length ∧
      p = boxes.getD (pickLargestSplittableIndex boxes).toNat default ∧
      splitStep s boxes = some ((chooseBalancedCut (chooseLongestAxis s p).1
          (axisSize p (chooseLongestAxis s p).2) (3 / 10)).1,
        boxes.take (pickLargestSplittableIndex boxes).toNat ++ [a, b] ++
          boxes.drop ((pickLargestSplittableIndex boxes).toNat + 1)) ∧
      intBox a ∧ intBox b ∧ insideBox a p ∧ insideBox b p ∧
      ¬ overlapsOpen a b ∧ vol a + vol b = vol p := by
  obtain ⟨hilen, hisp⟩ := pick_nonneg_spec (l := boxes) (by omega)
  set i := (pickLargestSplittableIndex boxes).toNat with hi
  set p := boxes.getD i default with hp
  have hib : intBox p := hgood p (ListFacts.getD_mem hilen default)
  obtain ⟨n, hn2, hax⟩ := chooseLongestAxis_spec s hib hisp
  set axis := (chooseLongestAxis s p).2 with haxis
  obtain ⟨m, hm1, hmn, hcut⟩ :=
    chooseBalancedCut_spec (chooseLongestAxis s p).1 (3 / 10) hax hn2
  have hcut0 : (0 : ℚ) < (m : ℚ) := by exact_mod_cast hm1
  have hcutlt : (m : ℚ) < axisSize p axis := by
    rw [hax]
    exact_mod_cast (by omega : m < n)
  obtain ⟨hins1, hins2⟩ := splitBox_inside hcut0 hcutlt
  have hdisj := splitBox_disjoint hcut0 hcutlt
  obtain ⟨hint1, hint2⟩ := splitBox_intBox hib hax hm1 hmn
  have hvol := splitBox_vol_sum p axis ((m : ℚ))
  refine ⟨p, (splitBoxByAxisCenter p axis ((m : ℚ))).1,
    (splitBoxByAxisCenter p axis ((m : ℚ))).2, hilen, rfl, ?_, hint1, hint2,
    hins1, hins2, hdisj, hvol⟩
  simp only [splitStep, if_neg hpos, ← hi, ← hp, ← haxis, hcut]

theorem splice_inv {size : ℕ} {t1 t2 : List Box3} {p a b : Box3}
    (hInv : SplitInv size (t1 ++ p :: t2))
    (hia : intBox a) (hib2 : intBox b) (hina : insideBox a p)
    (hinb : insideBox b p) (hdisj : ¬ overlapsOpen a b)
    (hvol : vol a + vol b = vol p) :
    SplitInv size (t1 ++ a :: b :: t2) := by
  obtain ⟨hmem, hpw, hsum⟩ := hInv
  have hmemp : p ∈ t1 ++ p :: t2 := by simp
  have hinsp := (hmem p hmemp).2
  refine ⟨?_, ?_, ?_⟩
  · intro c hc
    rcases List.mem_append.mp hc with hc1 | hc2
    · exact hmem c (List.mem_append.mpr (Or.inl hc1))
    · rcases List.mem_cons.mp hc2 with rfl | hc3
      · exact ⟨hia, insideBox_trans hina hinsp⟩
      · rcases List.mem_cons.mp hc3 with rfl | hc4
        · exact ⟨hib2, insideBox_trans hinb hinsp⟩
        · exact hmem c (by simp [hc4])
  · rw [List.pairwise_append] at hpw ⊢
    obtain ⟨hP1, hPc, hcross⟩ := hpw
    rw [List.pairwise_cons] at hPc
    obtain ⟨hp_t2, hP2⟩ := hPc
    refine ⟨hP1, ?_, ?_⟩
    · rw [List.pairwise_cons]
      constructor
      · intro y hy
        rcases List.mem_cons.mp hy with rfl | hy2
        · exact hdisj
        · exact insideBox_not_overlaps_left hina (hp_t2 y hy2)
      · rw [List.pairwise_cons]
        exact ⟨fun y hy => insideBox_not_overlaps_left hinb (hp_t2 y hy), hP2⟩
    · intro u hu v hv
      rcases List.mem_cons.mp hv with rfl | hv2
      · exact insideBox_not_overlaps_right hina (hcross u hu p (by simp))
      · rcases List.mem_cons.mp hv2 with rfl | hv3
        · exact insideBox_not_overlaps_right hinb (hcross u hu p (by simp))
        · exact hcross u hu v (by simp [hv3])
  · simp only [List.map_append, List.sum_append, List.map_cons, List.sum_cons]
      at hsum ⊢
    linarith

theorem splitStep_inv {size : ℕ} {s : ℕ} {boxes : List Box3} {s1 : ℕ}
    {boxes1 : List Box3} (hInv : SplitInv size boxes)
    (h : splitStep s boxes = some (s1, boxes1)) :
    SplitInv size boxes1 ∧ boxes1.length = boxes.length + 1 := by
  by_cases hneg : pickLargestSplittableIndex boxes < 0
  · exfalso
    simp [splitStep, hneg] at h
  · obtain ⟨p, a, b, hilen, hpdef, hstep, hia, hib2, hina, hinb, hdisj, hvol⟩ :=
      splitStep_children (s := s) (fun c hc => (hInv.1 c hc).1) hneg
    rw [hstep] at h
    rw [Option.some.injEq, Prod.mk.injEq] at h
    obtain ⟨hs1, hb1⟩ := h
    set i := (pickLargestSplittableIndex boxes).toNat with hi
    have hdec : boxes = boxes.take i ++ p :: boxes.drop (i + 1) := by
      rw [hpdef]
      exact ListFacts.eq_take_cons_drop hilen default
    have happ : boxes.take i ++ [a, b] ++ boxes.drop (i + 1)
        = boxes.take i ++ a :: b :: boxes.drop (i + 1) := by
      simp
    constructor
    · rw [← hb1, happ]
      have hInv2 : SplitInv size (boxes.take i ++ p :: boxes.drop (i + 1)) := by
        rw [← hdec]
        exact hInv
      exact splice_inv hInv2 hia hib2 hina hinb hdisj hvol
    · rw [← hb1, happ]
      conv_rhs => rw [hdec]
      simp only [List.length_append, List.length_cons, List.length_take,
        List.length_drop]
      omega

end Gen

namespace Gen

theorem splitStep_none_pick {s : ℕ} {boxes : List Box3}
    (h : splitStep s boxes = none) : pickLargestSplittableIndex boxes < 0 := by
  by_contra hq
  simp [splitStep, if_neg hq] at h

theorem splitLoop_spec (size : ℕ) : ∀ (fuel s : ℕ) (boxes : List Box3),
    SplitInv size boxes →
    SplitInv size (splitLoop fuel s boxes).2 ∧
    ((splitLoop fuel s boxes).2.length = boxes.length + fuel ∨
     ((splitLoop fuel s boxes).2.length < boxes.length + fuel ∧
      ∀ b ∈ (splitLoop fuel s boxes).2, ¬ splittable b)) := by
  intro fuel
  induction fuel with
  | zero =>
    intro s boxes hInv
    exact ⟨hInv, Or.inl (by simp [splitLoop])⟩
  | succ n ih =>
    intro s boxes hInv
    cases hs : splitStep s boxes with
    | none =>
      have hres : splitLoop (n + 1) s boxes = (s, boxes) := by
        simp [splitLoop, hs]
      rw [hres]
      refine ⟨hInv, Or.inr ⟨?_, ?_⟩⟩
      · show boxes.length < boxes.length + (n + 1)
        omega
      · exact pick_neg_spec (splitStep_none_pick hs)
          (fun b hb => vol_pos (hInv.1 b hb).1)
    | some pair =>
      obtain ⟨s1, boxes1⟩ := pair
      have hres : splitLoop (n + 1) s boxes = splitLoop n s1 boxes1 := by
        simp [splitLoop, hs]
      rw [hres]
      obtain ⟨hInv1, hlen1⟩ := splitStep_inv hInv hs
      obtain ⟨hInv2, hlen2⟩ := ih s1 boxes1 hInv1
      refine ⟨hInv2, ?_⟩
      rcases hlen2 with h | ⟨h, hall⟩
      · exact Or.inl (by omega)
      · exact Or.inr ⟨by omega, hall⟩

theorem initial_inv {size : ℕ} (hsz : 1 ≤ size) :
    SplitInv size [containerBox size] := by
  refine ⟨?_, ?_, ?_⟩
  · intro b hb
    rw [List.mem_singleton] at hb
    subst hb
    exact ⟨⟨⟨size, by omega, rfl⟩, ⟨size, by omega, rfl⟩, ⟨size, by omega, rfl⟩⟩,
      insideBox_refl _⟩
  · simp
  · simp only [List.map_singleton, List.sum_singleton, vol, containerBox]
    ring

theorem size_pos_of_valid {size cuts : ℕ} (h : (cuts : ℤ) ≤ (size : ℤ) ^ 3 - 1) :
    1 ≤ size := by
  rcases Nat.eq_zero_or_pos size with rfl | hp
  · norm_num at h
    omega
  · exact hp

theorem generateBoxes_ok {size cuts seed : ℕ}
    (h : (cuts : ℤ) ≤ (size : ℤ) ^ 3 - 1) :
    generateBoxes size cuts seed =
      Except.ok (splitLoop cuts (createRng seed) [containerBox size]).2 := by
  rw [generateBoxes, if_neg (not_lt.mpr h)]

theorem okBoxes_ok (l : List Box3) : okBoxes (Except.ok l) = l := rfl

theorem all_unit_count {size : ℕ} {l : List Box3} (hInv : SplitInv size l)
    (hall : ∀ b ∈ l, ¬ splittable b) : l.length = size ^ 3 := by
  have h1 : ∀ b ∈ l, vol b = 1 := by
    intro b hb
    obtain ⟨⟨hw, hh, hd⟩, _⟩ := hInv.1 b hb
    have hns := hall b hb
    rw [splittable] at hns
    push_neg at hns
    obtain ⟨hw1, hh1, hd1⟩ := hns
    rcases hw with ⟨nw, hnw, hew⟩
    rcases hh with ⟨nh, hnh, heh⟩
    rcases hd with ⟨nd, hnd, hed⟩
    have : nw = 1 := by
      have : (nw : ℚ) ≤ 1 := by rw [← hew]; exact hw1
      have : nw ≤ 1 := by exact_mod_cast this
      omega
    have : nh = 1 := by
      have : (nh : ℚ) ≤ 1 := by rw [← heh]; exact hh1
      have : nh ≤ 1 := by exact_mod_cast this
      omega
    have : nd = 1 := by
      have : (nd : ℚ) ≤ 1 := by rw [← hed]; exact hd1
      have : nd ≤ 1 := by exact_mod_cast this
      omega
    rw [vol, hew, heh, hed]
    simp_all
  have h2 : ((l.length : ℕ) : ℚ) = ((size : ℚ)) ^ 3 := by
    rw [← hInv.2.2]
    exact (ListFacts.sum_map_const_one h1).symm
  have h3 : ((l.length : ℕ) : ℚ) = (((size ^ 3 : ℕ)) : ℚ) := by
    rw [h2]
    push_cast
    ring
  exact_mod_cast h3

theorem splitStepList_intBox {s : ℕ} {l : List Box3}
    (hgood : ∀ b ∈ l, intBox b) : ∀ b ∈ splitStepList s l, intBox b := by
  by_cases hneg : pickLargestSplittableIndex l < 0
  · have hnone : splitStep s l = none := by
      simp [splitStep, hneg]
    rw [splitStepList, hnone]
    exact hgood
  · obtain ⟨p, a, b2, hilen, hpdef, hstep, hia, hib2, _⟩ :=
      splitStep_children (s := s) hgood hneg
    rw [splitStepList, hstep]
    intro c hc
    rcases List.mem_append.mp hc with hc1 | hc2
    · rcases List.mem_append.mp hc1 with hc3 | hc4
      · exact hgood c (List.take_subset _ _ hc3)
      · rcases List.mem_cons.mp hc4 with rfl | hc5
        · exact hia
        · rw [List.mem_singleton] at hc5
          subst hc5
          exact hib2
    · exact hgood c (List.drop_subset _ _ hc2)

end Gen


namespace Figure

theorem floor_frac_lt {t : ℚ} (h0 : 0 ≤ t) (h1 : t < 1) {len : ℕ} (hlen : 0 < len) :
    (Int.floor (t * (len : ℚ))).toNat < len := by
  have hmul : t * (len : ℚ) < (len : ℚ) :=
    mul_lt_of_lt_one_left (by exact_mod_cast hlen) h1
  have hf : Int.floor (t * (len : ℚ)) < (len : ℤ) :=
    Int.floor_lt.mpr (by exact_mod_cast hmul)
  have hnn : 0 ≤ Int.floor (t * (len : ℚ)) := Int.floor_nonneg.mpr (by positivity)
  omega

theorem sampleDimension_ge_one (s : ℕ) : 1 ≤ (sampleDimension s).2 := by
  simp only [sampleDimension]
  have h0 : (0 : ℚ) ≤ (Gen.rngStep s).2 * 3 := by
    have := Gen.rngStep_nonneg s
    linarith
  have h1 : (0 : ℤ) ≤ Int.floor ((Gen.rngStep s).2 * 3) := Int.floor_nonneg.mpr h0
  have h2 : (0 : ℚ) ≤ ((Int.floor ((Gen.rngStep s).2 * 3) : ℤ) : ℚ) := by
    exact_mod_cast h1
  linarith

theorem createRandomBox_dims (s : ℕ) :
    1 ≤ (createRandomBox s).2.width ∧ 1 ≤ (createRandomBox s).2.height ∧
    1 ≤ (createRandomBox s).2.depth := by
  refine ⟨?_, ?_, ?_⟩ <;> simp only [createRandomBox] <;>
    exact sampleDimension_ge_one _

theorem offsetWithin_bound {aExt cExt : ℚ} (s : ℕ) (ha : 0 < aExt)
    (hc : 0 < cExt) : 2 * |(offsetWithin aExt cExt s).2| < aExt + cExt := by
  simp only [offsetWithin]
  split_ifs with hr hle hle hsign
  all_goals simp only [Prod.fst, Prod.snd, zero_add, add_zero, mul_one, mul_neg_one]
  · simp
    linarith
  · rw [abs_of_nonneg (by linarith)]
    linarith
  · rw [abs_of_nonpos (by linarith)]
    linarith
  · have hmax : (aExt - cExt) ⊔ 0 = aExt - cExt := max_eq_left (by linarith)
    have habs : |(Gen.rngStep s).2 - 1 / 2| ≤ 1 / 2 :=
      abs_le.mpr ⟨by linarith [Gen.rngStep_nonneg s], by linarith [Gen.rngStep_lt_one s]⟩
    rw [hmax, abs_mul, abs_of_nonneg (show (0 : ℚ) ≤ aExt - cExt by linarith)]
    have hm2 : |(Gen.rngStep s).2 - 1 / 2| * (aExt - cExt) ≤ 1 / 2 * (aExt - cExt) :=
      mul_le_mul_of_nonneg_right habs (by linarith)
    linarith
  · exact absurd (max_eq_right (by linarith)) hr
  · exact absurd (max_eq_right (by linarith)) hr

end Figure

namespace Figure

theorem place_props (anchor c : Box3) (axis : Axis) (dir : ℚ) (s : ℕ)
    (hdir : dir = 1 ∨ dir = -1)
    (ha : 0 < anchor.width ∧ 0 < anchor.height ∧ 0 < anchor.depth)
    (hc : 0 < c.width ∧ 0 < c.height ∧ 0 < c.depth) :
    touches anchor (placeAdjacentBox anchor c axis dir s).2 ∧
    (placeAdjacentBox anchor c axis dir s).2.width = c.width ∧
    (placeAdjacentBox anchor c axis dir s).2.height = c.height ∧
    (placeAdjacentBox anchor c axis dir s).2.depth = c.depth := by
  obtain ⟨haw, hah, had⟩ := ha
  obtain ⟨hcw, hch, hcd⟩ := hc
  have hflush : ∀ v e1 e2 : ℚ, 0 < e1 → 0 < e2 →
      |v - (v + dir * (e1 / 2 + e2 / 2))| * 2 = e1 + e2 := by
    intro v e1 e2 he1 he2
    have h1 : v - (v + dir * (e1 / 2 + e2 / 2)) = -(dir * (e1 / 2 + e2 / 2)) := by
      ring
    rw [h1, abs_neg]
    rcases hdir with rfl | rfl
    · rw [one_mul, abs_of_nonneg (by linarith)]
      ring
    · rw [show (-1 : ℚ) * (e1 / 2 + e2 / 2) = -(e1 / 2 + e2 / 2) from by ring,
        abs_neg, abs_of_nonneg (by linarith)]
      ring
  have hoff : ∀ (v : ℚ) (e1 e2 : ℚ) (st : ℕ), 0 < e1 → 0 < e2 →
      |v - (v + (offsetWithin e1 e2 st).2)| * 2 < e1 + e2 := by
    intro v e1 e2 st he1 he2
    have h1 : v - (v + (offsetWithin e1 e2 st).2) = -(offsetWithin e1 e2 st).2 := by
      ring
    rw [h1, abs_neg]
    have := offsetWithin_bound st he1 he2
    linarith
  cases axis with
  | x =>
    refine ⟨?_, rfl, rfl, rfl⟩
    simp only [placeAdjacentBox]
    exact Or.inl ⟨hflush anchor.x anchor.width c.width haw hcw,
      hoff anchor.y anchor.height c.height s hah hch,
      hoff anchor.z anchor.depth c.depth (offsetWithin anchor.height c.height s).1
        had hcd⟩
  | y =>
    refine ⟨?_, rfl, rfl, rfl⟩
    simp only [placeAdjacentBox]
    exact Or.inr (Or.inl ⟨hflush anchor.y anchor.height c.height hah hch,
      hoff anchor.x anchor.width c.width s haw hcw,
      hoff anchor.z anchor.depth c.depth (offsetWithin anchor.width c.width s).1
        had hcd⟩)
  | z =>
    refine ⟨?_, rfl, rfl, rfl⟩
    simp only [placeAdjacentBox]
    exact Or.inr (Or.inr ⟨hflush anchor.z anchor.depth c.depth had hcd,
      hoff anchor.x anchor.width c.width s haw hcw,
      hoff anchor.y anchor.height c.height (offsetWithin anchor.width c.width s).1
        hah hch⟩)

end Figure

namespace Figure

/-- Invariant of the assembler growth loop: nonempty, unit-or-larger integer
extents, pairwise negative overlap test, and every later box face-touching an
earlier one. -/
def AInv (l : List Box3) : Prop :=
  l ≠ [] ∧
  (∀ b ∈ l, 1 ≤ b.width ∧ 1 ≤ b.height ∧ 1 ≤ b.depth) ∧
  l.Pairwise (fun a b => boxesOverlap a b = false) ∧
  ∀ i : ℕ, 0 < i → i < l.length →
    ∃ j, j < i ∧ touches (l.getD j default) (l.getD i default)

theorem attemptOnce_spec (s : ℕ) {l : List Box3} (hne : l ≠ [])
    (hdims : ∀ b ∈ l, 1 ≤ b.width ∧ 1 ≤ b.height ∧ 1 ≤ b.depth) :
    (∃ j, j < l.length ∧ touches (l.getD j default) (attemptOnce s l).2) ∧
    1 ≤ (attemptOnce s l).2.width ∧ 1 ≤ (attemptOnce s l).2.height ∧
      1 ≤ (attemptOnce s l).2.depth := by
  have hlen : 0 < l.length := List.length_pos.mpr hne
  have hjlt : (Int.floor ((Gen.rngStep s).2 * (l.length : ℚ))).toNat < l.length :=
    floor_frac_lt (Gen.rngStep_nonneg s) (Gen.rngStep_lt_one s) hlen
  set j := (Int.floor ((Gen.rngStep s).2 * (l.length : ℚ))).toNat with hj
  have hanch : l.getD j (l.getD 0 default) = l.getD j default :=
    ListFacts.getD_irrel hjlt _ _
  have hadims := hdims (l.getD j default) (ListFacts.getD_mem hjlt default)
  have hcd := createRandomBox_dims (Gen.rngStep s).1
  have hdir : (if (Gen.rngStep (Gen.rngStep (createRandomBox (Gen.rngStep s).1).1).1).2
      < 1 / 2 then (-1 : ℚ) else 1) = 1 ∨
      (if (Gen.rngStep (Gen.rngStep (createRandomBox (Gen.rngStep s).1).1).1).2
      < 1 / 2 then (-1 : ℚ) else 1) = -1 := by
    split_ifs
    · exact Or.inr rfl
    · exact Or.inl rfl
  have hpl := place_props (l.getD j default)
    ((createRandomBox (Gen.rngStep s).1).2)
    (if (Gen.rngStep (createRandomBox (Gen.rngStep s).1).1).2 < 1 / 3
      then Axis.x else if (Gen.rngStep (createRandomBox (Gen.rngStep s).1).1).2 < 2 / 3
      then Axis.y else Axis.z)
    (if (Gen.rngStep (Gen.rngStep (createRandomBox (Gen.rngStep s).1).1).1).2
      < 1 / 2 then (-1 : ℚ) else 1)
    (Gen.rngStep (Gen.rngStep (createRandomBox (Gen.rngStep s).1).1).1).1
    hdir
    ⟨by linarith [hadims.1], by linarith [hadims.2.1], by linarith [hadims.2.2]⟩
    ⟨by linarith [hcd.1], by linarith [hcd.2.1], by linarith [hcd.2.2]⟩
  simp only [attemptOnce, ← hj, hanch]
  exact ⟨⟨j, hjlt, hpl.1⟩, by rw [hpl.2.1]; exact hcd.1,
    by rw [hpl.2.2.1]; exact hcd.2.1, by rw [hpl.2.2.2]; exact hcd.2.2⟩

end Figure

namespace Figure

theorem attemptLoop_some : ∀ (att s : ℕ) {l : List Box3} {s1 : ℕ} {b : Box3},
    l ≠ [] → (∀ x ∈ l, 1 ≤ x.width ∧ 1 ≤ x.height ∧ 1 ≤ x.depth) →
    attemptLoop att s l = (s1, some b) →
    (∀ x ∈ l, boxesOverlap x b = false) ∧
    (∃ j, j < l.length ∧ touches (l.getD j default) b) ∧
    (1 ≤ b.width ∧ 1 ≤ b.height ∧ 1 ≤ b.depth) := by
  intro att
  induction att with
  | zero =>
    intro s l s1 b _ _ h
    exfalso
    rw [attemptLoop, Prod.mk.injEq] at h
    exact Option.noConfusion h.2
  | succ a ih =>
    intro s l s1 b hne hdims h
    rw [attemptLoop] at h
    by_cases hany : l.any (fun x => boxesOverlap x (attemptOnce s l).2) = true
    · rw [if_pos hany] at h
      exact ih _ hne hdims h
    · rw [if_neg hany] at h
      rw [Prod.mk.injEq, Option.some.injEq] at h
      obtain ⟨hs1, hb⟩ := h
      subst hb
      have hspec := attemptOnce_spec s hne hdims
      refine ⟨?_, hspec.1, hspec.2⟩
      intro x hx
      rw [List.any_eq_true] at hany
      push_neg at hany
      have := hany x hx
      simpa using this

theorem buildLoop_inv : ∀ (f : ℕ) (bc : ℤ) (s : ℕ) (l : List Box3),
    AInv l → AInv (buildLoop f bc s l).2 ∧ l.length ≤ (buildLoop f bc s l).2.length := by
  intro f
  induction f with
  | zero =>
    intro bc s l h
    exact ⟨h, le_refl _⟩
  | succ f ih =>
    intro bc s l h
    rw [buildLoop]
    by_cases hcond : (l.length : ℤ) < bc
    · rw [if_pos hcond]
      cases hat : attemptLoop 64 s l with
      | mk s1 opt =>
        cases opt with
        | none => exact ⟨h, le_refl _⟩
        | some b =>
          obtain ⟨hne, hdims, hpw, htch⟩ := h
          obtain ⟨hov, ⟨j0, hj0, htj0⟩, hbdims⟩ :=
            attemptLoop_some 64 s hne hdims hat
          have hInv2 : AInv (l ++ [b]) := by
            refine ⟨by simp, ?_, ?_, ?_⟩
            · intro x hx
              rcases List.mem_append.mp hx with hx1 | hx2
              · exact hdims x hx1
              · rw [List.mem_singleton] at hx2
                subst hx2
                exact hbdims
            · rw [List.pairwise_append]
              refine ⟨hpw, by simp, ?_⟩
              intro x hx y hy
              rw [List.mem_singleton] at hy
              subst hy
              exact hov x hx
            · intro i hi0 hilen
              rw [List.length_append, List.length_singleton] at hilen
              by_cases hilt : i < l.length
              · obtain ⟨j, hj, ht⟩ := htch i hi0 hilt
                refine ⟨j, hj, ?_⟩
                rw [ListFacts.getD_append_left (by omega) default,
                  ListFacts.getD_append_left hilt default]
                exact ht
              · have hieq : i = l.length := by omega
                refine ⟨j0, by omega, ?_⟩
                rw [hieq, ListFacts.getD_append_left hj0 default,
                  show l ++ [b] = l ++ b :: [] from rfl,
                  ListFacts.getD_append_len l [] b default]
                exact htj0
          obtain ⟨hI, hL⟩ := ih bc s1 (l ++ [b]) hInv2
          refine ⟨hI, ?_⟩
          calc l.length ≤ (l ++ [b]).length := by simp
            _ ≤ _ := hL
    · rw [if_neg hcond]
      exact ⟨h, le_refl _⟩

end Figure

namespace Figure

/-- Translation of a box by a fixed vector (what recenterBoxes applies). -/
def translate (cx cy cz : ℚ) (b : Box3) : Box3 :=
  { b with x := b.x - cx, y := b.y - cy, z := b.z - cz }

theorem recenterBoxes_eq_map (l : List Box3) :
    recenterBoxes l = l.map (translate
      ((foldMinL loX l + foldMaxL hiX l) / 2)
      ((foldMinL loY l + foldMaxL hiY l) / 2)
      ((foldMinL loZ l + foldMaxL hiZ l) / 2)) := rfl

theorem boxesOverlap_translate (cx cy cz : ℚ) (a b : Box3) :
    boxesOverlap (translate cx cy cz a) (translate cx cy cz b) = boxesOverlap a b := by
  simp only [boxesOverlap, translate, sub_sub_sub_cancel_right]

theorem touches_translate (cx cy cz : ℚ) (a b : Box3) :
    touches (translate cx cy cz a) (translate cx cy cz b) ↔ touches a b := by
  simp only [touches, translate, sub_sub_sub_cancel_right]

theorem translate_extents (cx cy cz : ℚ) (b : Box3) :
    (translate cx cy cz b).width = b.width ∧
    (translate cx cy cz b).height = b.height ∧
    (translate cx cy cz b).depth = b.depth := ⟨rfl, rfl, rfl⟩

theorem AInv_map_translate {l : List Box3} (cx cy cz : ℚ) (h : AInv l) :
    AInv (l.map (translate cx cy cz)) := by
  obtain ⟨hne, hdims, hpw, htch⟩ := h
  refine ⟨?_, ?_, ?_, ?_⟩
  · intro hh
    exact hne (List.map_eq_nil.mp hh)
  · intro b hb
    rcases List.mem_map.mp hb with ⟨a, ha, rfl⟩
    exact hdims a ha
  · rw [List.pairwise_map]
    refine hpw.imp ?_
    intro a b hab
    rw [boxesOverlap_translate]
    exact hab
  · intro i hi0 hilen
    rw [List.length_map] at hilen
    obtain ⟨j, hj, ht⟩ := htch i hi0 hilen
    refine ⟨j, hj, ?_⟩
    have hgi : (l.map (translate cx cy cz)).getD i default
        = translate cx cy cz (l.getD i default) := by
      rw [ListFacts.getD_irrel (by rw [List.length_map]; exact hilen) default
        (translate cx cy cz default)]
      exact ListFacts.getD_map _ l i default
    have hgj : (l.map (translate cx cy cz)).getD j default
        = translate cx cy cz (l.getD j default) := by
      rw [ListFacts.getD_irrel (by rw [List.length_map]; omega) default
        (translate cx cy cz default)]
      exact ListFacts.getD_map _ l j default
    rw [hgi, hgj, touches_translate]
    exact ht

theorem foldl_min_sub {α : Type} (f : α → ℚ) (c : ℚ) :
    ∀ (bs : List α) (init : ℚ),
      bs.foldl (fun m v => min m (f v - c)) (init - c)
        = bs.foldl (fun m v => min m (f v)) init - c := by
  intro bs
  induction bs with
  | nil => intro init; rfl
  | cons b t ih =>
    intro init
    simp only [List.foldl_cons]
    rw [show min (init - c) (f b - c) = min init (f b) - c from by
      rcases le_total init (f b) with h | h
      · rw [min_eq_left h, min_eq_left (by linarith)]
      · rw [min_eq_right h, min_eq_right (by linarith)]]
    exact ih _

theorem foldl_max_sub {α : Type} (f : α → ℚ) (c : ℚ) :
    ∀ (bs : List α) (init : ℚ),
      bs.foldl (fun m v => max m (f v - c)) (init - c)
        = bs.foldl (fun m v => max m (f v)) init - c := by
  intro bs
  induction bs with
  | nil => intro init; rfl
  | cons b t ih =>
    intro init
    simp only [List.foldl_cons]
    rw [show max (init - c) (f b - c) = max init (f b) - c from by
      rcases le_total init (f b) with h | h
      · rw [max_eq_right h, max_eq_right (by linarith)]
      · rw [max_eq_left h, max_eq_left (by linarith)]]
    exact ih _

theorem foldMinL_sub {α : Type} {l : List α} (f g : α → ℚ) (c : ℚ)
    (hne : l ≠ []) (hfg : ∀ a, g a = f a - c) :
    foldMinL g l = foldMinL f l - c := by
  cases l with
  | nil => exact absurd rfl hne
  | cons b t =>
    simp only [foldMinL]
    rw [show (fun m v => min m (g v)) = fun m v => min m (f v - c) from by
      funext m v
      rw [hfg], hfg b]
    exact foldl_min_sub f c t (f b)

theorem foldMaxL_sub {α : Type} {l : List α} (f g : α → ℚ) (c : ℚ)
    (hne : l ≠ []) (hfg : ∀ a, g a = f a - c) :
    foldMaxL g l = foldMaxL f l - c := by
  cases l with
  | nil => exact absurd rfl hne
  | cons b t =>
    simp only [foldMaxL]
    rw [show (fun m v => max m (g v)) = fun m v => max m (f v - c) from by
      funext m v
      rw [hfg], hfg b]
    exact foldl_max_sub f c t (f b)

theorem foldMinL_map_comp {α β : Type} (f : β → ℚ) (g : α → β) (l : List α) :
    foldMinL f (l.map g) = foldMinL (fun a => f (g a)) l := by
  cases l with
  | nil => rfl
  | cons b t => simp only [List.map_cons, foldMinL, List.foldl_map]

theorem foldMaxL_map_comp {α β : Type} (f : β → ℚ) (g : α → β) (l : List α) :
    foldMaxL f (l.map g) = foldMaxL (fun a => f (g a)) l := by
  cases l with
  | nil => rfl
  | cons b t => simp only [List.map_cons, foldMaxL, List.foldl_map]

theorem finalize_map_geo : ∀ (s i : ℕ) (l : List Box3),
    ((finalizeBoxes s i l).2).map geo = l := by
  intro s i l
  induction l generalizing s i with
  | nil => rfl
  | cons b t ih =>
    simp only [finalizeBoxes, List.map_cons]
    rw [ih]
    simp [geo]

theorem finalize_length (s i : ℕ) (l : List Box3) :
    (finalizeBoxes s i l).2.length = l.length := by
  have := congrArg List.length (finalize_map_geo s i l)
  rw [List.length_map] at this
  exact this

end Figure

namespace Figure

theorem AInv_singleton {b : Box3}
    (h : 1 ≤ b.width ∧ 1 ≤ b.height ∧ 1 ≤ b.depth) : AInv [b] := by
  refine ⟨by simp, ?_, by simp, ?_⟩
  · intro x hx
    rw [List.mem_singleton] at hx
    subst hx
    exact h
  · intro i hi0 hilen
    rw [List.length_singleton] at hilen
    omega

theorem generateFigure_geo_eq (seed : ℕ) (bc : ℤ) :
    ((generateFigure seed bc).boxes).map geo =
      recenterBoxes (buildLoop bc.toNat bc
        (createRandomBox (Gen.createRng seed)).1
        [(createRandomBox (Gen.createRng seed)).2]).2 :=
  finalize_map_geo _ _ _

theorem generateFigure_spec (seed : ℕ) (bc : ℤ) :
    AInv (((generateFigure seed bc).boxes).map geo) := by
  rw [generateFigure_geo_eq, recenterBoxes_eq_map]
  apply AInv_map_translate
  exact (buildLoop_inv _ _ _ _
    (AInv_singleton (createRandomBox_dims (Gen.createRng seed)))).1

theorem generateFigure_len (seed : ℕ) (bc : ℤ) :
    1 ≤ (generateFigure seed bc).boxes.length := by
  have h1 := congrArg List.length (generateFigure_geo_eq seed bc)
  rw [List.length_map, recenterBoxes_eq_map, List.length_map] at h1
  have h2 := (buildLoop_inv bc.toNat bc
    (createRandomBox (Gen.createRng seed)).1
    [(createRandomBox (Gen.createRng seed)).2]
    (AInv_singleton (createRandomBox_dims (Gen.createRng seed)))).2
  rw [List.length_singleton] at h2
  omega

theorem boxesOverlap_comm (a b : Box3) : boxesOverlap a b = boxesOverlap b a := by
  simp only [boxesOverlap]
  rw [abs_sub_comm a.x, abs_sub_comm a.y, abs_sub_comm a.z,
    add_comm a.width, add_comm a.height, add_comm a.depth]

theorem recenter_center_zero {l : List Box3} (hne : l ≠ []) :
    (foldMinL loX (recenterBoxes l) + foldMaxL hiX (recenterBoxes l) = 0) ∧
    (foldMinL loY (recenterBoxes l) + foldMaxL hiY (recenterBoxes l) = 0) ∧
    (foldMinL loZ (recenterBoxes l) + foldMaxL hiZ (recenterBoxes l) = 0) := by
  rw [recenterBoxes_eq_map]
  set cx := (foldMinL loX l + foldMaxL hiX l) / 2 with hcx
  set cy := (foldMinL loY l + foldMaxL hiY l) / 2 with hcy
  set cz := (foldMinL loZ l + foldMaxL hiZ l) / 2 with hcz
  have hminx : foldMinL loX (l.map (translate cx cy cz)) = foldMinL loX l - cx := by
    rw [foldMinL_map_comp]
    exact foldMinL_sub loX _ cx hne (fun a => by simp [loX, translate]; ring)
  have hmaxx : foldMaxL hiX (l.map (translate cx cy cz)) = foldMaxL hiX l - cx := by
    rw [foldMaxL_map_comp]
    exact foldMaxL_sub hiX _ cx hne (fun a => by simp [hiX, translate]; ring)
  have hminy : foldMinL loY (l.map (translate cx cy cz)) = foldMinL loY l - cy := by
    rw [foldMinL_map_comp]
    exact foldMinL_sub loY _ cy hne (fun a => by simp [loY, translate]; ring)
  have hmaxy : foldMaxL hiY (l.map (translate cx cy cz)) = foldMaxL hiY l - cy := by
    rw [foldMaxL_map_comp]
    exact foldMaxL_sub hiY _ cy hne (fun a => by simp [hiY, translate]; ring)
  have hminz : foldMinL loZ (l.map (translate cx cy cz)) = foldMinL loZ l - cz := by
    rw [foldMinL_map_comp]
    exact foldMinL_sub loZ _ cz hne (fun a => by simp [loZ, translate]; ring)
  have hmaxz : foldMaxL hiZ (l.map (translate cx cy cz)) = foldMaxL hiZ l - cz := by
    rw [foldMaxL_map_comp]
    exact foldMaxL_sub hiZ _ cz hne (fun a => by simp [hiZ, translate]; ring)
  rw [hminx, hmaxx, hminy, hmaxy, hminz, hmaxz, hcx, hcy, hcz]
  refine ⟨by ring, by ring, by ring⟩

theorem reach_of_AInv {out : List GameBox} (h : AInv (out.map geo)) :
    ∀ i, i < out.length → Relation.ReflTransGen (reachStep out) 0 i := by
  obtain ⟨hne, hdims, hpw, htch⟩ := h
  intro i
  induction i using Nat.strong_induction_on with
  | _ i ih =>
    intro hi
    rcases Nat.eq_zero_or_pos i with rfl | hpos
    · exact Relation.ReflTransGen.refl
    · have hlen : i < (out.map geo).length := by
        rw [List.length_map]
        exact hi
      obtain ⟨j, hj, ht⟩ := htch i hpos hlen
      have hstep : reachStep out j i := by
        refine ⟨by omega, hi, ?_⟩
        rw [← ListFacts.getD_map geo out j default,
          ← ListFacts.getD_map geo out i default]
        exact ht
      exact Relation.ReflTransGen.tail (ih j (by omega) (by omega)) hstep

end Figure

namespace Pack

theorem cons_set_perm {α : Type} (d : α) : ∀ (t : List α) (k : ℕ) (a : α),
    k < t.length → (t.getD k d :: t.set k a).Perm (a :: t) := by
  intro t
  induction t with
  | nil =>
    intro k a hk
    simp at hk
  | cons b t2 ih =>
    intro k a hk
    cases k with
    | zero =>
      simp only [List.getD_cons_zero, List.set_cons_zero]
      exact List.Perm.swap a b t2
    | succ k2 =>
      simp only [List.getD_cons_succ, List.set_cons_succ]
      exact ((List.Perm.swap b (t2.getD k2 d) (t2.set k2 a)).trans
        ((ih k2 a (by simpa using hk)).cons b)).trans (List.Perm.swap a b t2)

theorem swap_perm_lt {α : Type} (d : α) : ∀ {l : List α} {i j : ℕ}, i < j →
    j < l.length → ((l.set i (l.getD j d)).set j (l.getD i d)).Perm l := by
  intro l
  induction l with
  | nil =>
    intro i j hij hj
    simp at hj
  | cons b t ih =>
    intro i j hij hj
    cases i with
    | zero =>
      cases j with
      | zero => omega
      | succ j2 =>
        simp only [List.getD_cons_succ, List.getD_cons_zero, List.set_cons_zero,
          List.set_cons_succ]
        exact cons_set_perm d t j2 b (by simpa using hj)
    | succ i2 =>
      cases j with
      | zero => omega
      | succ j2 =>
        simp only [List.set_cons_succ, List.getD_cons_succ]
        exact (ih (by omega) (by simpa using hj)).cons b

theorem swap_perm {α : Type} (d : α) {l : List α} {i j : ℕ} (hi : i < l.length)
    (hj : j < l.length) :
    ((l.set i (l.getD j d)).set j (l.getD i d)).Perm l := by
  rcases Nat.lt_trichotomy i j with hij | rfl | hij
  · exact swap_perm_lt d hij hj
  · rw [List.set_set, ListFacts.set_getD_self hi d]
  · rw [List.set_comm _ _ _ (by omega)]
    exact swap_perm_lt d hij hi

theorem shuffleAux_perm : ∀ (i s : ℕ) (l : List ℕ), i < l.length →
    ((shuffleAux i s l).2).Perm l := by
  intro i
  induction i with
  | zero =>
    intro s l _
    exact List.Perm.refl _
  | succ i0 ih =>
    intro s l hi
    have hcast : ((i0 + 1 : ℕ) : ℚ) + 1 = ((i0 + 2 : ℕ) : ℚ) := by
      push_cast
      ring
    have hj2 : (Int.floor ((seededStep s).2 * (((i0 + 1 : ℕ) : ℚ) + 1))).toNat
        < i0 + 2 := by
      rw [hcast]
      exact Figure.floor_frac_lt (seededStep_nonneg s) (seededStep_lt_one s)
        (by omega)
    have hjlen : (Int.floor ((seededStep s).2 * (((i0 + 1 : ℕ) : ℚ) + 1))).toNat
        < l.length := by omega
    have hswap := swap_perm 0 (l := l) (i := i0 + 1)
      (j := (Int.floor ((seededStep s).2 * (((i0 + 1 : ℕ) : ℚ) + 1))).toNat)
      hi hjlen
    have hlen2 : (((l.set (i0 + 1)
        (l.getD (Int.floor ((seededStep s).2 * (((i0 + 1 : ℕ) : ℚ) + 1))).toNat 0)).set
        (Int.floor ((seededStep s).2 * (((i0 + 1 : ℕ) : ℚ) + 1))).toNat
        (l.getD (i0 + 1) 0))).length = l.length := by
      rw [List.length_set, List.length_set]
    exact (ih _ _ (by rw [hlen2]; omega)).trans hswap

theorem shuffleIndices_perm (len s : ℕ) :
    ((shuffleIndices len s).2).Perm (List.range len) := by
  cases len with
  | zero => exact List.Perm.refl _
  | succ n =>
    rw [shuffleIndices]
    exact shuffleAux_perm (n + 1 - 1) s (List.range (n + 1))
      (by rw [List.length_range]; omega)

theorem shuffle_mem_lt (len s : ℕ) : ∀ x ∈ (shuffleIndices len s).2, x < len := by
  intro x hx
  have := (shuffleIndices_perm len s).mem_iff.mp hx
  exact List.mem_range.mp this

theorem shuffle_nodup (len s : ℕ) : ((shuffleIndices len s).2).Nodup :=
  ((shuffleIndices_perm len s).nodup_iff).mpr (List.nodup_range len)

theorem shuffle_length (len s : ℕ) : ((shuffleIndices len s).2).length = len := by
  rw [(shuffleIndices_perm len s).length_eq, List.length_range]

end Pack

namespace Pack

theorem setDebuffTrue_debuffs (k : DebuffKind) (b : GBox) (k2 : DebuffKind) :
    (setDebuffTrue k b).debuffs k2 = if k2 = k then true else b.debuffs k2 := rfl

theorem applyTags_length (k : DebuffKind) : ∀ (S : List ℕ) (boxes : List GBox),
    (applyTags k S boxes).length = boxes.length := by
  intro S
  induction S with
  | nil => intro boxes; rfl
  | cons i S2 ih =>
    intro boxes
    have happ : applyTags k (i :: S2) boxes
        = applyTags k S2 (boxes.set i (setDebuffTrue k (boxes.getD i default))) := rfl
    rw [happ, ih, List.length_set]

theorem applyTags_debuffs (k : DebuffKind) : ∀ (S : List ℕ) (boxes : List GBox),
    (∀ x ∈ S, x < boxes.length) → ∀ jj, jj < boxes.length → ∀ k2,
    ((applyTags k S boxes).getD jj default).debuffs k2 =
      if k2 = k ∧ jj ∈ S then true else (boxes.getD jj default).debuffs k2 := by
  intro S
  induction S with
  | nil =>
    intro boxes _ jj hjj k2
    simp [applyTags]
  | cons i S2 ih =>
    intro boxes hS jj hjj k2
    have hi : i < boxes.length := hS i (by simp)
    have happ : applyTags k (i :: S2) boxes
        = applyTags k S2 (boxes.set i (setDebuffTrue k (boxes.getD i default))) := rfl
    rw [happ]
    have hlen2 : (boxes.set i (setDebuffTrue k (boxes.getD i default))).length
        = boxes.length := List.length_set _ _ _
    have hS2 : ∀ x ∈ S2,
        x < (boxes.set i (setDebuffTrue k (boxes.getD i default))).length := by
      rw [hlen2]
      exact fun x hx => hS x (by simp [hx])
    rw [ih _ hS2 jj (by rw [hlen2]; exact hjj) k2]
    by_cases hji : jj = i
    · subst hji
      rw [ListFacts.getD_set_self hjj _ _]
      by_cases hk : k2 = k
      · subst hk
        by_cases hmem : jj ∈ S2 <;> simp [hmem, setDebuffTrue_debuffs]
      · simp [hk, setDebuffTrue_debuffs]
    · rw [ListFacts.getD_set_ne (fun hh => hji hh.symm) _ _]
      by_cases hk : k2 = k
      · subst hk
        by_cases hmem : jj ∈ S2
        · simp [hmem]
        · have hnm : ¬ jj ∈ i :: S2 := by simp [hji, hmem]
          simp [hmem, hnm]
      · simp [hk]

theorem distPass_length : ∀ (entries : List (DebuffKind × ℤ)) (s : ℕ)
    (boxes : List GBox), (distPass s entries boxes).length = boxes.length := by
  intro entries
  induction entries with
  | nil => intro s boxes; rfl
  | cons e rest ih =>
    intro s boxes
    obtain ⟨k, amount⟩ := e
    rw [distPass]
    by_cases ha : amount ≤ 0
    · rw [if_pos ha]
      exact ih _ _
    · rw [if_neg ha]
      rw [ih, applyTags_length]

theorem distPass_debuffs_other : ∀ (entries : List (DebuffKind × ℤ)) (s : ℕ)
    (boxes : List GBox) (k : DebuffKind), (∀ e ∈ entries, e.1 ≠ k) →
    ∀ jj, jj < boxes.length →
    ((distPass s entries boxes).getD jj default).debuffs k
      = (boxes.getD jj default).debuffs k := by
  intro entries
  induction entries with
  | nil =>
    intro s boxes k _ jj hjj
    rfl
  | cons e rest ih =>
    intro s boxes k hk jj hjj
    obtain ⟨k1, amount⟩ := e
    have hk1 : k1 ≠ k := hk (k1, amount) (by simp)
    rw [distPass]
    by_cases ha : amount ≤ 0
    · rw [if_pos ha]
      exact ih _ _ k (fun e he => hk e (by simp [he])) jj hjj
    · rw [if_neg ha]
      have hSlt : ∀ x ∈ ((shuffleIndices boxes.length s).2.take
          (min amount.toNat boxes.length)), x < boxes.length :=
        fun x hx => shuffle_mem_lt boxes.length s x (List.take_subset _ _ hx)
      rw [ih _ _ k (fun e he => hk e (by simp [he])) jj
        (by rw [applyTags_length]; exact hjj)]
      rw [applyTags_debuffs k1 _ boxes hSlt jj hjj k]
      have hcond : ¬ (k = k1 ∧ jj ∈ (shuffleIndices boxes.length s).2.take
          (min amount.toNat boxes.length)) := fun hh => hk1 hh.1.symm
      rw [if_neg hcond]

end Pack

namespace Pack

theorem distPass_quota : ∀ (pre : List (DebuffKind × ℤ)) (s : ℕ)
    (boxes : List GBox) (k : DebuffKind) (n : ℤ) (post : List (DebuffKind × ℤ)),
    (∀ e ∈ pre, e.1 ≠ k) → (∀ e ∈ post, e.1 ≠ k) → 0 < n →
    (∀ jj, jj < boxes.length → (boxes.getD jj default).debuffs k = false) →
    ∃ st : ℕ, ∀ jj, jj < boxes.length →
      (((distPass s (pre ++ (k, n) :: post) boxes).getD jj default).debuffs k = true
        ↔ jj ∈ (shuffleIndices boxes.length st).2.take (min n.toNat boxes.length)) := by
  intro pre
  induction pre with
  | nil =>
    intro s boxes k n post _ hpost hn huntag
    refine ⟨s, ?_⟩
    intro jj hjj
    rw [List.nil_append, distPass, if_neg (by omega)]
    have hSlt : ∀ x ∈ ((shuffleIndices boxes.length s).2.take
        (min n.toNat boxes.length)), x < boxes.length :=
      fun x hx => shuffle_mem_lt boxes.length s x (List.take_subset _ _ hx)
    rw [distPass_debuffs_other post _ _ k hpost jj
      (by rw [applyTags_length]; exact hjj)]
    rw [applyTags_debuffs k _ boxes hSlt jj hjj k]
    by_cases hmem : jj ∈ (shuffleIndices boxes.length s).2.take
        (min n.toNat boxes.length)
    · simp [hmem]
    · rw [if_neg (fun hh => hmem hh.2), huntag jj hjj]
      simp [hmem]
  | cons e pre2 ih =>
    intro s boxes k n post hpre hpost hn huntag
    obtain ⟨k1, amount⟩ := e
    have hk1 : k1 ≠ k := hpre (k1, amount) (by simp)
    rw [List.cons_append, distPass]
    by_cases ha : amount ≤ 0
    · rw [if_pos ha]
      exact ih _ boxes k n post (fun e he => hpre e (by simp [he])) hpost hn huntag
    · rw [if_neg ha]
      have hSlt : ∀ x ∈ ((shuffleIndices boxes.length s).2.take
          (min amount.toNat boxes.length)), x < boxes.length :=
        fun x hx => shuffle_mem_lt boxes.length s x (List.take_subset _ _ hx)
      have hlen2 : (applyTags k1 ((shuffleIndices boxes.length s).2.take
          (min amount.toNat boxes.length)) boxes).length = boxes.length :=
        applyTags_length _ _ _
      have huntag2 : ∀ jj, jj < (applyTags k1 ((shuffleIndices boxes.length s).2.take
          (min amount.toNat boxes.length)) boxes).length →
          ((applyTags k1 ((shuffleIndices boxes.length s).2.take
            (min amount.toNat boxes.length)) boxes).getD jj default).debuffs k
            = false := by
        intro jj hjj
        rw [hlen2] at hjj
        rw [applyTags_debuffs k1 _ boxes hSlt jj hjj k,
          if_neg (fun hh => hk1 hh.1.symm)]
        exact huntag jj hjj
      obtain ⟨st, hst⟩ := ih _ _ k n post (fun e he => hpre e (by simp [he]))
        hpost hn huntag2
      refine ⟨st, ?_⟩
      intro jj hjj
      have := hst jj (by rw [hlen2]; exact hjj)
      rw [hlen2] at this
      exact this

end Pack

namespace Pack

theorem countP_eq_range {α : Type} [Inhabited α] (p : α → Bool) :
    ∀ l : List α, l.countP p
      = ((List.range l.length).countP (fun i => p (l.getD i default))) := by
  intro l
  induction l with
  | nil => rfl
  | cons a t ih =>
    rw [List.countP_cons, List.length_cons, List.range_succ_eq_map,
      List.countP_cons, List.countP_map]
    have hc : ((List.range t.length).countP
        ((fun i => p ((a :: t).getD i default)) ∘ Nat.succ))
        = (List.range t.length).countP (fun i => p (t.getD i default)) := by
      apply List.countP_congr
      intro x _
      simp [Function.comp, List.getD_cons_succ]
    rw [hc, ← ih]
    simp only [List.getD_cons_zero]

theorem countP_mem_list {S : List ℕ} (hnd : S.Nodup) {len : ℕ}
    (hsub : ∀ x ∈ S, x < len) :
    (List.range len).countP (fun i => decide (i ∈ S)) = S.length := by
  rw [List.countP_eq_length_filter]
  have hnd2 : ((List.range len).filter (fun i => decide (i ∈ S))).Nodup :=
    (List.nodup_range len).filter _
  have hmemiff : ∀ x, x ∈ (List.range len).filter (fun i => decide (i ∈ S))
      ↔ x ∈ S := by
    intro x
    rw [List.mem_filter, List.mem_range]
    constructor
    · intro hh
      simpa using hh.2
    · intro hh
      exact ⟨hsub x hh, by simpa using hh⟩
  have h3 : ((List.range len).filter (fun i => decide (i ∈ S))).toFinset
      = S.toFinset := by
    apply Finset.ext
    intro a
    rw [List.mem_toFinset, List.mem_toFinset]
    exact hmemiff a
  have h1 := List.toFinset_card_of_nodup hnd2
  have h2 := List.toFinset_card_of_nodup hnd
  rw [h3] at h1
  omega

theorem tagged_count {out : List GBox} {k : DebuffKind} {S : List ℕ}
    (hnd : S.Nodup) (hsub : ∀ x ∈ S, x < out.length)
    (hiff : ∀ jj, jj < out.length →
      (((out.getD jj default).debuffs k) = true ↔ jj ∈ S)) :
    out.countP (fun b => b.debuffs k) = S.length := by
  rw [countP_eq_range]
  have hco : (List.range out.length).countP
      (fun i => (out.getD i default).debuffs k)
      = (List.range out.length).countP (fun i => decide (i ∈ S)) := by
    apply List.countP_congr
    intro x hx
    rw [List.mem_range] at hx
    have := hiff x hx
    by_cases hmem : x ∈ S
    · rw [this.mpr hmem]
      exact iff_of_true rfl (decide_eq_true hmem)
    · rw [decide_eq_false hmem]
      exact iff_of_false (fun hb => hmem (this.mp hb)) (by simp)
  rw [hco]
  exact countP_mem_list hnd hsub

end Pack

namespace Figure

theorem touches_not_overlap {a b : Box3} (h : touches a b) :
    boxesOverlap a b = false := by
  have heps : (0 : ℚ) < eps := by norm_num [eps]
  rcases h with ⟨he, _, _⟩ | ⟨he, _, _⟩ | ⟨he, _, _⟩
  · have hx : ¬ (|a.x - b.x| * 2 < a.width + b.width - eps) := by
      rw [he]
      linarith
    simp only [boxesOverlap, decide_eq_false hx]
    simp
  · have hy : ¬ (|a.y - b.y| * 2 < a.height + b.height - eps) := by
      rw [he]
      linarith
    simp only [boxesOverlap, decide_eq_false hy]
    simp
  · have hz : ¬ (|a.z - b.z| * 2 < a.depth + b.depth - eps) := by
      rw [he]
      linarith
    simp only [boxesOverlap, decide_eq_false hz]
    simp

theorem attemptLoop_single (s : ℕ) {b : Box3}
    (hdims : 1 ≤ b.width ∧ 1 ≤ b.height ∧ 1 ≤ b.depth) :
    attemptLoop 64 s [b] = ((attemptOnce s [b]).1, some (attemptOnce s [b]).2) := by
  obtain ⟨⟨j, hj, ht⟩, _⟩ := attemptOnce_spec s (l := [b]) (by simp)
    (by
      intro x hx
      rw [List.mem_singleton] at hx
      subst hx
      exact hdims)
  have hj0 : j = 0 := by
    simp only [List.length_singleton] at hj
    omega
  subst hj0
  rw [List.getD_cons_zero] at ht
  have hov := touches_not_overlap ht
  show attemptLoop (63 + 1) s [b] = _
  rw [attemptLoop]
  rw [show ([b].any fun x => boxesOverlap x (attemptOnce s [b]).2)
      = boxesOverlap b (attemptOnce s [b]).2 from by simp]
  rw [hov]
  simp

theorem buildLoop_succ (f : ℕ) (bc : ℤ) (s : ℕ) (l : List Box3) :
    buildLoop (f + 1) bc s l =
      if (l.length : ℤ) < bc then
        match attemptLoop 64 s l with
        | (s1, none) => (s1, l)
        | (s1, some b) => buildLoop f bc s1 (l ++ [b])
      else (s, l) := rfl

theorem generateFigure_two_len (seed : ℕ) :
    (Figure.generateFigure seed 2).boxes.length = 2 := by
  have hb := createRandomBox_dims (Gen.createRng seed)
  have h1 := attemptLoop_single (createRandomBox (Gen.createRng seed)).1 hb
  have hlen := congrArg List.length (generateFigure_geo_eq seed 2)
  rw [List.length_map, recenterBoxes_eq_map, List.length_map] at hlen
  rw [hlen]
  rw [show ((2 : ℤ).toNat) = 1 + 1 from by simp]
  rw [buildLoop_succ, if_pos (by simp), h1]
  dsimp only
  rw [show (1 : ℕ) = 0 + 1 from rfl, buildLoop_succ, if_neg (by simp)]
  simp

end Figure

/-- C1: for every container size, every cuts value within the valid bound
`cuts ≤ size^3 - 1` and every seed, the box list returned by the Splitter
`generateBoxes` exactly partitions the container volume: the box volumes sum
to the container volume, no two distinct boxes have overlapping interiors,
every box has positive volume, and every box lies inside the container. -/
theorem splitter_exact_partition (size cuts seed : ℕ)
    (h : (cuts : ℤ) ≤ (size : ℤ) ^ 3 - 1) :
    ((Gen.okBoxes (Gen.generateBoxes size cuts seed)).map Gen.vol).sum
        = ((size : ℚ)) ^ 3 ∧
    (Gen.okBoxes (Gen.generateBoxes size cuts seed)).Pairwise
      (fun a b => ¬ Gen.overlapsOpen a b) ∧
    (∀ b ∈ Gen.okBoxes (Gen.generateBoxes size cuts seed), 0 < Gen.vol b) ∧
    (∀ b ∈ Gen.okBoxes (Gen.generateBoxes size cuts seed),
      Gen.insideBox b (Gen.containerBox size)) := by
  rw [Gen.generateBoxes_ok h, Gen.okBoxes_ok]
  have hInv := (Gen.splitLoop_spec size cuts (Gen.createRng seed)
    [Gen.containerBox size] (Gen.initial_inv (Gen.size_pos_of_valid h))).1
  exact ⟨hInv.2.2, hInv.2.1, fun b hb => Gen.vol_pos (hInv.1 b hb).1,
    fun b hb => (hInv.1 b hb).2⟩

/-- Witness for C1 at size 2, cuts 1, seed 42. -/
theorem splitter_exact_partition_witness :
    ((1 : ℤ) ≤ (2 : ℤ) ^ 3 - 1) ∧
    (((Gen.okBoxes (Gen.generateBoxes 2 1 42)).map Gen.vol).sum = ((2 : ℚ)) ^ 3 ∧
     (Gen.okBoxes (Gen.generateBoxes 2 1 42)).Pairwise
       (fun a b => ¬ Gen.overlapsOpen a b) ∧
     (∀ b ∈ Gen.okBoxes (Gen.generateBoxes 2 1 42), 0 < Gen.vol b) ∧
     (∀ b ∈ Gen.okBoxes (Gen.generateBoxes 2 1 42),
       Gen.insideBox b (Gen.containerBox 2))) :=
  ⟨by norm_num, splitter_exact_partition 2 1 42 (by norm_num)⟩

/-- C2: for a fixed seed, two independent generator calls agree: the PRNG of
`createRng` and of `createSeededRandom` produce the same output sequence on
every call with the same seed, and both generators return identical box
lists. -/
theorem generators_deterministic (s1 s2 : ℕ) (h : s1 = s2) :
    (∀ n, rngSeq s1 n = rngSeq s2 n) ∧
    (∀ n, seededSeq s1 n = seededSeq s2 n) ∧
    (∀ size cuts, Gen.generateBoxes size cuts s1 = Gen.generateBoxes size cuts s2) ∧
    (∀ bc, Figure.generateFigure s1 bc = Figure.generateFigure s2 bc) := by
  subst h
  exact ⟨fun _ => rfl, fun _ => rfl, fun _ _ => rfl, fun _ => rfl⟩

/-- Witness for C2 at seed 42. -/
theorem generators_deterministic_witness :
    (∀ n, rngSeq 42 n = rngSeq 42 n) ∧
    (∀ n, seededSeq 42 n = seededSeq 42 n) ∧
    (∀ size cuts, Gen.generateBoxes size cuts 42 = Gen.generateBoxes size cuts 42) ∧
    (∀ bc, Figure.generateFigure 42 bc = Figure.generateFigure 42 bc) :=
  generators_deterministic 42 42 rfl

/-- C3: the Splitter reports the invalid-argument error exactly when the
requested cuts exceed `size^3 - 1`; within the bound it returns normally, so
no out-of-range cut count is silently clamped. -/
theorem splitter_cuts_validation (size cuts seed : ℕ) :
    Gen.isErr (Gen.generateBoxes size cuts seed) = true
      ↔ (size : ℤ) ^ 3 - 1 < (cuts : ℤ) := by
  by_cases h : (size : ℤ) ^ 3 - 1 < (cuts : ℤ)
  · simp [Gen.generateBoxes, if_pos h, Gen.isErr, h]
  · simp [Gen.generateBoxes, if_neg h, Gen.isErr, h]

/-- C4: every pair of distinct boxes emitted by the Assembler fails the
three-axis overlap test. -/
theorem assembler_no_overlap (seed : ℕ) (boxCount : ℤ) (i j : ℕ)
    (hi : i < (Figure.generateFigure seed boxCount).boxes.length)
    (hj : j < (Figure.generateFigure seed boxCount).boxes.length)
    (hij : i ≠ j) :
    Figure.boxesOverlap
      (Figure.geo ((Figure.generateFigure seed boxCount).boxes.getD i default))
      (Figure.geo ((Figure.generateFigure seed boxCount).boxes.getD j default))
      = false := by
  have hInv := Figure.generateFigure_spec seed boxCount
  have hpw := hInv.2.2.1
  have hgd : ∀ m, m < (Figure.generateFigure seed boxCount).boxes.length →
      ((Figure.generateFigure seed boxCount).boxes.map Figure.geo).getD m default
        = Figure.geo ((Figure.generateFigure seed boxCount).boxes.getD m default) := by
    intro m _
    exact ListFacts.getD_map Figure.geo _ m default
  have hlen : ∀ m, m < (Figure.generateFigure seed boxCount).boxes.length →
      m < ((Figure.generateFigure seed boxCount).boxes.map Figure.geo).length := by
    intro m hm
    rw [List.length_map]
    exact hm
  rcases Nat.lt_or_ge i j with hlt | hge
  · have hh := ListFacts.pairwise_getD hpw hlt (hlen j hj) default
    rw [hgd i hi, hgd j hj] at hh
    exact hh
  · have hlt : j < i := by omega
    have hh := ListFacts.pairwise_getD hpw hlt (hlen i hi) default
    rw [hgd j hj, hgd i hi] at hh
    rw [Figure.boxesOverlap_comm]
    exact hh

/-- Witness for C4 at seed 7, boxCount 2, pair (0, 1). -/
theorem assembler_no_overlap_witness :
    (0 < (Figure.generateFigure 7 2).boxes.length ∧
     1 < (Figure.generateFigure 7 2).boxes.length) ∧
    Figure.boxesOverlap
      (Figure.geo ((Figure.generateFigure 7 2).boxes.getD 0 default))
      (Figure.geo ((Figure.generateFigure 7 2).boxes.getD 1 default)) = false :=
  ⟨⟨by rw [Figure.generateFigure_two_len]; norm_num,
    by rw [Figure.generateFigure_two_len]; norm_num⟩,
   assembler_no_overlap 7 2 0 1
     (by rw [Figure.generateFigure_two_len]; norm_num)
     (by rw [Figure.generateFigure_two_len]; norm_num)
     (by norm_num)⟩

/-- C5: the face-touching graph of the boxes emitted by the Assembler is
connected: every box is reachable from the first box. -/
theorem assembler_connected (seed : ℕ) (boxCount : ℤ) (i : ℕ)
    (hi : i < (Figure.generateFigure seed boxCount).boxes.length) :
    Relation.ReflTransGen
      (Figure.reachStep (Figure.generateFigure seed boxCount).boxes) 0 i :=
  Figure.reach_of_AInv (Figure.generateFigure_spec seed boxCount) i hi

/-- Witness for C5 at seed 7, boxCount 2, box 1. -/
theorem assembler_connected_witness :
    (1 < (Figure.generateFigure 7 2).boxes.length) ∧
    Relation.ReflTransGen
      (Figure.reachStep (Figure.generateFigure 7 2).boxes) 0 1 :=
  ⟨by rw [Figure.generateFigure_two_len]; norm_num,
   assembler_connected 7 2 1 (by rw [Figure.generateFigure_two_len]; norm_num)⟩

/-- C6: for every valid cut count the Splitter returns exactly `cuts + 1`
boxes, or fewer only when every remaining box is a unit cube (no dimension
above 1); with `cuts = size^3 - 1` it returns exactly `size^3` boxes. -/
theorem splitter_box_count (size cuts seed : ℕ)
    (h : (cuts : ℤ) ≤ (size : ℤ) ^ 3 - 1) :
    ((Gen.okBoxes (Gen.generateBoxes size cuts seed)).length = cuts + 1 ∨
      ((Gen.okBoxes (Gen.generateBoxes size cuts seed)).length < cuts + 1 ∧
       ∀ b ∈ Gen.okBoxes (Gen.generateBoxes size cuts seed),
         b.width ≤ 1 ∧ b.height ≤ 1 ∧ b.depth ≤ 1)) ∧
    ((cuts : ℤ) = (size : ℤ) ^ 3 - 1 →
      (Gen.okBoxes (Gen.generateBoxes size cuts seed)).length = size ^ 3) := by
  rw [Gen.generateBoxes_ok h, Gen.okBoxes_ok]
  obtain ⟨hInv, hcnt⟩ := Gen.splitLoop_spec size cuts (Gen.createRng seed)
    [Gen.containerBox size] (Gen.initial_inv (Gen.size_pos_of_valid h))
  rw [List.length_singleton] at hcnt
  constructor
  · rcases hcnt with h1 | ⟨h1, hall⟩
    · left
      omega
    · right
      refine ⟨by omega, ?_⟩
      intro b hb
      have hb2 := hall b hb
      rw [Gen.splittable] at hb2
      push_neg at hb2
      exact hb2
  · intro hce
    have hcast : ((size ^ 3 : ℕ) : ℤ) = (size : ℤ) ^ 3 := by push_cast; ring
    rw [← hcast] at hce
    rcases hcnt with h1 | ⟨h1, hall⟩
    · omega
    · exact Gen.all_unit_count hInv hall

/-- Witness for C6 at size 2, cuts 7 = 2^3 - 1, seed 5. -/
theorem splitter_box_count_witness :
    ((7 : ℤ) ≤ (2 : ℤ) ^ 3 - 1) ∧
    (((Gen.okBoxes (Gen.generateBoxes 2 7 5)).length = 7 + 1 ∨
      ((Gen.okBoxes (Gen.generateBoxes 2 7 5)).length < 7 + 1 ∧
       ∀ b ∈ Gen.okBoxes (Gen.generateBoxes 2 7 5),
         b.width ≤ 1 ∧ b.height ≤ 1 ∧ b.depth ≤ 1)) ∧
     ((7 : ℤ) = (2 : ℤ) ^ 3 - 1 →
      (Gen.okBoxes (Gen.generateBoxes 2 7 5)).length = 2 ^ 3)) :=
  ⟨by norm_num, splitter_box_count 2 7 5 (by norm_num)⟩

/-- C8: in the Splitter, the chosen cut position is always an integer strictly
interior to the segment (`1 ≤ cut ≤ size - 1`), every intermediate box after a
split step keeps positive integer extents, and every emitted box has positive
integer extents (so both children of every split have positive size). -/
theorem splitter_integer_cuts :
    (∀ (s : ℕ) (q : ℚ) (n : ℕ), q = (n : ℚ) → 2 ≤ n →
      ∃ m : ℕ, 1 ≤ m ∧ m + 1 ≤ n ∧
        (Gen.chooseBalancedCut s q (3 / 10)).2 = (m : ℚ)) ∧
    (∀ (s : ℕ) (l : List Box3), (∀ b ∈ l, Gen.intBox b) →
      ∀ b ∈ Gen.splitStepList s l, Gen.intBox b) ∧
    (∀ (size cuts seed : ℕ) (b : Box3),
      b ∈ Gen.okBoxes (Gen.generateBoxes size cuts seed) → Gen.intBox b) := by
  refine ⟨fun s q n hq h2 => Gen.chooseBalancedCut_spec s (3 / 10) hq h2,
    fun s l hg => Gen.splitStepList_intBox hg, ?_⟩
  intro size cuts seed b hb
  by_cases h : (cuts : ℤ) ≤ (size : ℤ) ^ 3 - 1
  · rw [Gen.generateBoxes_ok h, Gen.okBoxes_ok] at hb
    exact ((Gen.splitLoop_spec size cuts (Gen.createRng seed) _
      (Gen.initial_inv (Gen.size_pos_of_valid h))).1.1 b hb).1
  · rw [Gen.generateBoxes, if_pos (by omega)] at hb
    simp [Gen.okBoxes] at hb

/-- Witness for C8: the cut chosen for a segment of size 4 is an integer in
the interior `[1, 3]`. -/
theorem splitter_integer_cuts_witness :
    ∃ m : ℕ, 1 ≤ m ∧ m + 1 ≤ 4 ∧
      (Gen.chooseBalancedCut 0 ((4 : ℕ) : ℚ) (3 / 10)).2 = (m : ℚ) :=
  splitter_integer_cuts.1 0 ((4 : ℕ) : ℚ) 4 rfl (by norm_num)

/-- C9: the bounding box of the cluster emitted by the Assembler is centered
at the origin: on each axis, the midpoint of the minimal and maximal face
coordinates is zero (exactly, in rational arithmetic). -/
theorem assembler_recentered (seed : ℕ) (boxCount : ℤ) :
    (Figure.generateFigure seed boxCount).boxes ≠ [] ∧
    (Figure.foldMinL (fun g => g.x - g.width / 2)
        (Figure.generateFigure seed boxCount).boxes
      + Figure.foldMaxL (fun g => g.x + g.width / 2)
        (Figure.generateFigure seed boxCount).boxes) / 2 = 0 ∧
    (Figure.foldMinL (fun g => g.y - g.height / 2)
        (Figure.generateFigure seed boxCount).boxes
      + Figure.foldMaxL (fun g => g.y + g.height / 2)
        (Figure.generateFigure seed boxCount).boxes) / 2 = 0 ∧
    (Figure.foldMinL (fun g => g.z - g.depth / 2)
        (Figure.generateFigure seed boxCount).boxes
      + Figure.foldMaxL (fun g => g.z + g.depth / 2)
        (Figure.generateFigure seed boxCount).boxes) / 2 = 0 := by
  have hne : (Figure.generateFigure seed boxCount).boxes ≠ [] := by
    have := Figure.generateFigure_len seed boxCount
    exact List.length_pos.mp (by omega)
  have hraw : (Figure.buildLoop boxCount.toNat boxCount
      (Figure.createRandomBox (Gen.createRng seed)).1
      [(Figure.createRandomBox (Gen.createRng seed)).2]).2 ≠ [] :=
    (Figure.buildLoop_inv boxCount.toNat boxCount
      (Figure.createRandomBox (Gen.createRng seed)).1
      [(Figure.createRandomBox (Gen.createRng seed)).2]
      (Figure.AInv_singleton
        (Figure.createRandomBox_dims (Gen.createRng seed)))).1.1
  obtain ⟨hzx, hzy, hzz⟩ := Figure.recenter_center_zero hraw
  have hminx : Figure.foldMinL (fun g : Figure.GameBox => g.x - g.width / 2)
      (Figure.generateFigure seed boxCount).boxes
      = Figure.foldMinL Figure.loX
        ((Figure.generateFigure seed boxCount).boxes.map Figure.geo) :=
    (Figure.foldMinL_map_comp Figure.loX Figure.geo _).symm
  have hmaxx : Figure.foldMaxL (fun g : Figure.GameBox => g.x + g.width / 2)
      (Figure.generateFigure seed boxCount).boxes
      = Figure.foldMaxL Figure.hiX
        ((Figure.generateFigure seed boxCount).boxes.map Figure.geo) :=
    (Figure.foldMaxL_map_comp Figure.hiX Figure.geo _).symm
  have hminy : Figure.foldMinL (fun g : Figure.GameBox => g.y - g.height / 2)
      (Figure.generateFigure seed boxCount).boxes
      = Figure.foldMinL Figure.loY
        ((Figure.generateFigure seed boxCount).boxes.map Figure.geo) :=
    (Figure.foldMinL_map_comp Figure.loY Figure.geo _).symm
  have hmaxy : Figure.foldMaxL (fun g : Figure.GameBox => g.y + g.height / 2)
      (Figure.generateFigure seed boxCount).boxes
      = Figure.foldMaxL Figure.hiY
        ((Figure.generateFigure seed boxCount).boxes.map Figure.geo) :=
    (Figure.foldMaxL_map_comp Figure.hiY Figure.geo _).symm
  have hminz : Figure.foldMinL (fun g : Figure.GameBox => g.z - g.depth / 2)
      (Figure.generateFigure seed boxCount).boxes
      = Figure.foldMinL Figure.loZ
        ((Figure.generateFigure seed boxCount).boxes.map Figure.geo) :=
    (Figure.foldMinL_map_comp Figure.loZ Figure.geo _).symm
  have hmaxz : Figure.foldMaxL (fun g : Figure.GameBox => g.z + g.depth / 2)
      (Figure.generateFigure seed boxCount).boxes
      = Figure.foldMaxL Figure.hiZ
        ((Figure.generateFigure seed boxCount).boxes.map Figure.geo) :=
    (Figure.foldMaxL_map_comp Figure.hiZ Figure.geo _).symm
  refine ⟨hne, ?_, ?_, ?_⟩
  · rw [hminx, hmaxx, Figure.generateFigure_geo_eq, hzx]
    norm_num
  · rw [hminy, hmaxy, Figure.generateFigure_geo_eq, hzy]
    norm_num
  · rw [hminz, hmaxz, Figure.generateFigure_geo_eq, hzz]
    norm_num

/-- C10: for every seed and every requested box count, including zero and
negative counts, the Assembler emits at least one box: the seed box is created
unconditionally before the growth loop. -/
theorem assembler_nonempty (seed : ℕ) (boxCount : ℤ) :
    1 ≤ (Figure.generateFigure seed boxCount).boxes.length :=
  Figure.generateFigure_len seed boxCount

namespace Pack

theorem baseBoxes_untagged (seed : ℕ) (cuts : ℤ) (container : ContainerDims)
    (k : DebuffKind) : ∀ jj, jj < (baseBoxes seed cuts container).2.length →
    (((baseBoxes seed cuts container).2.getD jj default)).debuffs k = false := by
  intro jj hjj
  have hmemb := ListFacts.getD_mem hjj (default : GBox)
  rcases List.mem_map.mp hmemb with ⟨seg, _, hseg⟩
  rw [← hseg]

end Pack

/-- C7: after the debuff distribution pass of the warehouse generateBoxes,
a kind requested with count `n > 0` tags exactly `n` distinct boxes when
`n ≤ boxCount`, tags all boxes when `n > boxCount`, and the tagged boxes are
exactly the first `min n boxCount` indices of a seeded Fisher-Yates shuffle
of the box indices. -/
theorem debuff_distribution_quota (seed : ℕ) (cuts : ℤ)
    (container : Pack.ContainerDims) (dist : List (Pack.DebuffKind × ℤ))
    (k : Pack.DebuffKind) (n : ℤ)
    (hnodup : (dist.map Prod.fst).Nodup) (hmem : (k, n) ∈ dist) (hn : 0 < n) :
    (n.toNat ≤ (Pack.generateBoxes seed cuts container dist).length →
      (Pack.generateBoxes seed cuts container dist).countP
        (fun b => b.debuffs k) = n.toNat) ∧
    ((Pack.generateBoxes seed cuts container dist).length < n.toNat →
      ∀ b ∈ Pack.generateBoxes seed cuts container dist, b.debuffs k = true) ∧
    (∃ st : ℕ, ∀ jj, jj < (Pack.generateBoxes seed cuts container dist).length →
      (((Pack.generateBoxes seed cuts container dist).getD jj default).debuffs k
          = true ↔
        jj ∈ (Pack.shuffleIndices
          (Pack.generateBoxes seed cuts container dist).length st).2.take
          (min n.toNat (Pack.generateBoxes seed cuts container dist).length))) := by
  obtain ⟨pre, post, hdec⟩ := List.append_of_mem hmem
  subst hdec
  rw [List.map_append, List.map_cons, List.nodup_append] at hnodup
  obtain ⟨hnd1, hnd2, hdisj⟩ := hnodup
  rw [List.nodup_cons] at hnd2
  have hpre : ∀ e ∈ pre, e.1 ≠ k := by
    intro e he heq
    exact hdisj (List.mem_map_of_mem Prod.fst he) (by rw [heq]; simp)
  have hpost : ∀ e ∈ post, e.1 ≠ k := by
    intro e he heq
    have hm : e.1 ∈ post.map Prod.fst := List.mem_map_of_mem Prod.fst he
    rw [heq] at hm
    exact hnd2.1 hm
  obtain ⟨st, hst⟩ := Pack.distPass_quota pre
    (Pack.baseBoxes seed cuts container).1 (Pack.baseBoxes seed cuts container).2
    k n post hpre hpost hn (Pack.baseBoxes_untagged seed cuts container k)
  have hgen : Pack.generateBoxes seed cuts container (pre ++ (k, n) :: post)
      = Pack.distPass (Pack.baseBoxes seed cuts container).1
        (pre ++ (k, n) :: post) (Pack.baseBoxes seed cuts container).2 := rfl
  have hlen : (Pack.generateBoxes seed cuts container (pre ++ (k, n) :: post)).length
      = (Pack.baseBoxes seed cuts container).2.length := by
    rw [hgen, Pack.distPass_length]
  have hiff : ∀ jj, jj < (Pack.generateBoxes seed cuts container
      (pre ++ (k, n) :: post)).length →
      (((Pack.generateBoxes seed cuts container
          (pre ++ (k, n) :: post)).getD jj default).debuffs k = true ↔
        jj ∈ (Pack.shuffleIndices (Pack.generateBoxes seed cuts container
          (pre ++ (k, n) :: post)).length st).2.take
          (min n.toNat (Pack.generateBoxes seed cuts container
            (pre ++ (k, n) :: post)).length)) := by
    intro jj hjj
    rw [hlen] at hjj
    rw [hgen, Pack.distPass_length]
    exact hst jj hjj
  refine ⟨?_, ?_, ⟨st, hiff⟩⟩
  · intro hle
    have hnd : ((Pack.shuffleIndices (Pack.generateBoxes seed cuts container
        (pre ++ (k, n) :: post)).length st).2.take
        (min n.toNat (Pack.generateBoxes seed cuts container
          (pre ++ (k, n) :: post)).length)).Nodup :=
      (Pack.shuffle_nodup _ _).sublist (List.take_sublist _ _)
    have hsub : ∀ x ∈ (Pack.shuffleIndices (Pack.generateBoxes seed cuts container
        (pre ++ (k, n) :: post)).length st).2.take
        (min n.toNat (Pack.generateBoxes seed cuts container
          (pre ++ (k, n) :: post)).length),
        x < (Pack.generateBoxes seed cuts container
          (pre ++ (k, n) :: post)).length :=
      fun x hx => Pack.shuffle_mem_lt _ st x (List.take_subset _ _ hx)
    have hcnt := Pack.tagged_count hnd hsub hiff
    rw [hcnt, List.length_take, Pack.shuffle_length]
    omega
  · intro hlt b hb
    rcases (ListFacts.mem_iff_getD (default : Pack.GBox)).mp hb with ⟨jj, hjj, hgd⟩
    rw [← hgd]
    apply (hiff jj hjj).mpr
    have hminlen : min n.toNat (Pack.generateBoxes seed cuts container
        (pre ++ (k, n) :: post)).length
        = (Pack.generateBoxes seed cuts container
          (pre ++ (k, n) :: post)).length := by omega
    rw [hminlen, List.take_all_of_le (le_of_eq (Pack.shuffle_length _ _))]
    exact (Pack.shuffleIndices_perm _ _).mem_iff.mpr (List.mem_range.mpr hjj)

/-- Witness for C7: one box, one FRAGILE debuff requested. -/
theorem debuff_distribution_quota_witness :
    ((([(Pack.DebuffKind.FRAGILE, (1 : ℤ))].map Prod.fst).Nodup ∧
      (Pack.DebuffKind.FRAGILE, (1 : ℤ)) ∈ [(Pack.DebuffKind.FRAGILE, (1 : ℤ))] ∧
      (0 : ℤ) < 1) ∧
     (((1 : ℤ).toNat ≤ (Pack.generateBoxes 1 0 ⟨1, 1, 1⟩
          [(Pack.DebuffKind.FRAGILE, 1)]).length →
        (Pack.generateBoxes 1 0 ⟨1, 1, 1⟩
          [(Pack.DebuffKind.FRAGILE, 1)]).countP
          (fun b => b.debuffs Pack.DebuffKind.FRAGILE) = (1 : ℤ).toNat) ∧
      ((Pack.generateBoxes 1 0 ⟨1, 1, 1⟩
          [(Pack.DebuffKind.FRAGILE, 1)]).length < (1 : ℤ).toNat →
        ∀ b ∈ Pack.generateBoxes 1 0 ⟨1, 1, 1⟩ [(Pack.DebuffKind.FRAGILE, 1)],
          b.debuffs Pack.DebuffKind.FRAGILE = true) ∧
      (∃ st : ℕ, ∀ jj, jj < (Pack.generateBoxes 1 0 ⟨1, 1, 1⟩
          [(Pack.DebuffKind.FRAGILE, 1)]).length →
        (((Pack.generateBoxes 1 0 ⟨1, 1, 1⟩
            [(Pack.DebuffKind.FRAGILE, 1)]).getD jj default).debuffs
            Pack.DebuffKind.FRAGILE = true ↔
          jj ∈ (Pack.shuffleIndices (Pack.generateBoxes 1 0 ⟨1, 1, 1⟩
              [(Pack.DebuffKind.FRAGILE, 1)]).length st).2.take
            (min (1 : ℤ).toNat (Pack.generateBoxes 1 0 ⟨1, 1, 1⟩
              [(Pack.DebuffKind.FRAGILE, 1)]).length))))) :=
  ⟨⟨by simp, by simp, by norm_num⟩,
   debuff_distribution_quota 1 0 ⟨1, 1, 1⟩ [(Pack.DebuffKind.FRAGILE, 1)]
     Pack.DebuffKind.FRAGILE 1 (by simp) (by simp) (by norm_num)⟩
